import Mathlib

/-!
# Verification of the invoice extraction pipeline

A shallow embedding of the core pipeline logic of
`invoice_agent/extraction.py` (invoice-app), together with proofs of the
behavioural properties stated in the specification: the numeric/currency
normalizer, page-selection resolution, region fallback, the per-page /
per-batch header accumulation and merge rules, the configuration
resolver, best-effort checkpoint writes, and the stage chain's error
short-circuiting.

Python values are modelled by the inductive type `Value` (floats as
rationals), Python dicts by insertion-ordered association lists, and
external effects (LLM calls, database access, timestamps) by explicit
oracle parameters.
-/

namespace InvoiceApp

set_option maxRecDepth 40000

/-- Python runtime values as they occur in extracted invoice records.
Floats are modelled as rationals (the parsing code only ever produces
decimal fractions, which are exactly representable). -/
inductive Value where
  | vNone : Value
  | vStr : String → Value
  | vInt : Int → Value
  | vNum : ℚ → Value
  | vBool : Bool → Value
  deriving DecidableEq, Repr

/-- Python truthiness (`bool(v)`) for the values above:
`None`, `""`, `0`, `0.0` and `False` are falsy. -/
def truthy : Value → Bool
  | Value.vNone => false
  | Value.vStr s => s ≠ ""
  | Value.vInt n => n ≠ 0
  | Value.vNum q => q ≠ 0
  | Value.vBool b => b

/-- A Python dict with string keys, modelled as an insertion-ordered
association list (keys unique by construction of the operations). -/
abbrev Header := List (String × Value)

/-- Source `d.get(k)` / `d[k]`: first binding of `k`. -/
def hGet : Header → String → Option Value
  | [], _ => none
  | (k', v') :: t, k => if k' = k then some v' else hGet t k

/-- Source `k in d`. -/
def hContains (h : Header) (k : String) : Bool :=
  (hGet h k).isSome

/-- Source `d[k] = v`: replace in place if the key exists (Python dicts keep the
original insertion position), otherwise append. -/
def hSet : Header → String → Value → Header
  | [], k, v => [(k, v)]
  | (k', v') :: t, k, v =>
    if k' = k then (k, v) :: t else (k', v') :: hSet t k v

/-- Source `str.upper()` (ASCII range; country codes are ASCII). -/
def pyUpper (s : String) : String :=
  ⟨s.data.map Char.toUpper⟩

/-- Source `str.lower()` (ASCII range; brand names here are ASCII). -/
def pyLower (s : String) : String :=
  ⟨s.data.map Char.toLower⟩

/-! ## Region fallback (`determine_region_fallback`) -/

/-- North America set from `determine_region_fallback`. -/
def na_countries : List String := ["US", "CA", "MX"]

/-- EMEA set from `determine_region_fallback` (Europe, Middle East,
Africa; `CY` is listed twice in the source's set literal). -/
def emea_countries : List String :=
  ["GB", "DE", "FR", "IT", "ES", "NL", "BE", "CH", "AT", "SE", "NO", "DK",
   "FI", "IE", "PT", "GR", "PL", "CZ", "HU", "SK", "SI", "HR", "BG", "RO",
   "EE", "LV", "LT", "CY", "MT", "LU", "IS", "LI", "MC", "SM", "VA", "AD",
   "AL", "BA", "MK", "ME", "RS", "XK", "MD", "UA", "BY", "RU",
   "AE", "SA", "QA", "KW", "BH", "OM", "JO", "LB", "SY", "IQ", "IR", "IL",
   "PS", "TR", "CY",
   "ZA", "EG", "NG", "KE", "MA", "TN", "DZ", "LY", "SD", "ET", "UG", "TZ",
   "GH", "MZ", "MG", "CM", "CI", "NE", "BF", "ML", "MW", "ZM", "ZW", "BW",
   "NA", "SZ", "LS", "GA", "GQ", "ST", "CV", "GM", "GW", "SL", "LR", "GN",
   "SN", "MR", "TD", "CF", "CG", "CD", "AO", "DJ", "SO", "ER"]

/-- APAC set from `determine_region_fallback`. -/
def apac_countries : List String :=
  ["CN", "JP", "IN", "KR", "TH", "SG", "MY", "ID", "PH", "VN", "TW", "HK",
   "MO", "KH", "LA", "MM", "BN", "TL", "MN", "KP", "AF", "PK", "BD", "LK",
   "MV", "NP", "BT", "KZ", "KG", "TJ", "TM", "UZ", "AM", "AZ", "GE",
   "AU", "NZ", "PG", "FJ", "SB", "VU", "NC", "PF", "WS", "TO", "KI", "TV",
   "NR", "PW", "FM", "MH", "CK", "NU", "TK", "AS", "GU", "MP", "VI", "PR"]

/-- LATAM set from `determine_region_fallback`. -/
def latam_countries : List String :=
  ["BR", "AR", "CL", "CO", "PE", "VE", "EC", "BO", "UY", "PY", "GY", "SR",
   "GF", "GT", "BZ", "SV", "HN", "NI", "CR", "PA", "CU", "JM", "HT", "DO",
   "TT", "BB", "GD", "VC", "LC", "DM", "AG", "KN", "BS", "BM"]

/-- Source `determine_region_fallback(country_code)`.  The argument is
`Option String` because the caller can pass `None`; `if not country_code`
rejects both `None` and the empty string. -/
def determine_region_fallback (country_code : Option String) : String :=
  match country_code with
  | none => "UNKNOWN"
  | some cc =>
    if cc = "" then "UNKNOWN"
    else
      let up := pyUpper cc
      if up ∈ na_countries then "NA"
      else if up ∈ emea_countries then "EMEA"
      else if up ∈ apac_countries then "APAC"
      else if up ∈ latam_countries then "LATAM"
      else "UNKNOWN"

/-! ## Numeric/currency normalizer (`clean_numeric_values.parse_monetary_value`) -/

/-- Python regex `\s` for ASCII text: space, tab, newline, carriage
return, vertical tab, form feed. -/
def isPySpace (c : Char) : Bool :=
  c = ' ' || c = '\t' || c = '\n' || c = '\r' || c = '\x0b' || c = '\x0c'

/-- Source `str.strip()`: drop leading and trailing whitespace. -/
def pyStrip (s : String) : String :=
  ⟨((s.data.dropWhile isPySpace).reverse.dropWhile isPySpace).reverse⟩

/-- One of the currency symbol characters of the regex `[$€£¥]`. -/
def isCurrencySymbol (c : Char) : Bool :=
  c = '$' || c = '€' || c = '£' || c = '¥'

/-- An ASCII uppercase letter, `[A-Z]`. -/
def isAsciiUpper (c : Char) : Bool :=
  'A' ≤ c && c ≤ 'Z'

/-- Source `re.search(r'([$€£¥]|[A-Z]{3})', value)`: leftmost match, the
single-symbol alternative tried before the three-letter code. -/
def currencySearch : List Char → Option String
  | [] => none
  | c :: rest =>
    if isCurrencySymbol c then some ⟨[c]⟩
    else
      match rest with
      | c2 :: c3 :: _ =>
        if isAsciiUpper c && isAsciiUpper c2 && isAsciiUpper c3 then
          some ⟨[c, c2, c3]⟩
        else currencySearch rest
      | _ => currencySearch rest

/-- Source `re.sub(r'([$€£¥]|[A-Z]{3})', '', value)`: remove every
(non-overlapping, leftmost-first) match. -/
def currencyRemove : List Char → List Char
  | [] => []
  | [c] => if isCurrencySymbol c then [] else [c]
  | [c, c2] =>
    if isCurrencySymbol c then currencyRemove [c2]
    else c :: currencyRemove [c2]
  | c :: c2 :: c3 :: rest3 =>
    if isCurrencySymbol c then currencyRemove (c2 :: c3 :: rest3)
    else if isAsciiUpper c && isAsciiUpper c2 && isAsciiUpper c3 then
      currencyRemove rest3
    else c :: currencyRemove (c2 :: c3 :: rest3)

/-- Numeric value of a digit string (empty list gives `0`, as in the
positional accumulation Python performs on the digits it accepted). -/
def digitsNat (l : List Char) : ℕ :=
  l.foldl (fun a c => a * 10 + (c.toNat - '0'.toNat)) 0

/-- Source `(num / den) * 10 ^ e` as a rational (core `Rat.divInt`, so that
concrete values reduce in the kernel). -/
def applyExp (num : Int) (den : Nat) : Int → ℚ
  | Int.ofNat k => Rat.divInt (num * Int.ofNat (Nat.pow 10 k)) (Int.ofNat den)
  | Int.negSucc k => Rat.divInt num (Int.ofNat (den * Nat.pow 10 (k + 1)))

/-- Exponent tail of a Python float literal: empty, or `e`/`E` followed
by an optionally signed digit string. -/
def floatExpTail : List Char → Option Int
  | [] => some 0
  | e :: rest =>
    if e = 'e' || e = 'E' then
      match rest with
      | '+' :: ds =>
        if ds ≠ [] ∧ ds.all Char.isDigit then some (digitsNat ds) else none
      | '-' :: ds =>
        if ds ≠ [] ∧ ds.all Char.isDigit then some (-(digitsNat ds : Int)) else none
      | ds =>
        if ds ≠ [] ∧ ds.all Char.isDigit then some (digitsNat ds) else none
    else none

/-- Unsigned part of a Python float literal: digits, an optional point
with further digits (at least one digit overall), and an optional
exponent. (`inf`, `nan` and underscore separators are accepted by
Python's `float()` but cannot occur in monetary strings; they are not
modelled.) -/
def parseUnsignedFloat (l : List Char) : Option ℚ :=
  let ip := l.takeWhile Char.isDigit
  let r1 := l.dropWhile Char.isDigit
  match r1 with
  | '.' :: r2 =>
    let fp := r2.takeWhile Char.isDigit
    let r3 := r2.dropWhile Char.isDigit
    if ip = [] ∧ fp = [] then none
    else
      match floatExpTail r3 with
      | some e =>
        some (applyExp (Int.ofNat (digitsNat ip * Nat.pow 10 fp.length + digitsNat fp))
          (Nat.pow 10 fp.length) e)
      | none => none
  | _ =>
    if ip = [] then none
    else
      match floatExpTail r1 with
      | some e => some (applyExp (Int.ofNat (digitsNat ip)) 1 e)
      | none => none

/-- Source `float(s)`: strip whitespace, optional sign, unsigned literal.
Returns the exact rational value (all results here are decimal
fractions, exactly representable). -/
def pyFloat (s : String) : Option ℚ :=
  match (pyStrip s).data with
  | '+' :: rest => parseUnsignedFloat rest
  | '-' :: rest => (parseUnsignedFloat rest).map Rat.neg
  | l => parseUnsignedFloat l

/-- Source `int(s)`: strip whitespace, optional sign, nonempty digit string. -/
def pyInt (s : String) : Option Int :=
  let core : List Char → Option Int := fun ds =>
    if ds ≠ [] ∧ ds.all Char.isDigit then some (digitsNat ds) else none
  match (pyStrip s).data with
  | '+' :: rest => core rest
  | '-' :: rest => (core rest).map Neg.neg
  | l => core l

/-- Source `str.replace(a, b)` for single characters. -/
def listReplace (l : List Char) (a b : Char) : List Char :=
  l.map (fun c => if c = a then b else c)

/-- Source `str.replace(a, '')` for a single character. -/
def listRemove (l : List Char) (a : Char) : List Char :=
  l.filter (fun c => c ≠ a)

/-- The six-way format disambiguation of `parse_monetary_value`, applied
to the currency-stripped string, in the source's order.  Returns `none`
exactly when the chosen branch's `float()`/`int()` call raises
`ValueError` (every such branch returns the same fallback pair, so the
fallback is factored into the caller). -/
def monetaryCases (cl : List Char) : Option Value :=
  if cl.contains ',' && cl.contains '.' then
    (pyFloat ⟨listRemove cl ','⟩).map Value.vNum
  else if cl.contains ' ' && cl.contains ',' && !(cl.contains '.') then
    (pyFloat ⟨listReplace (listRemove cl ' ') ',' '.'⟩).map Value.vNum
  else if cl.contains ',' && !(cl.contains '.') && !(cl.contains ' ') then
    (pyFloat ⟨listReplace cl ',' '.'⟩).map Value.vNum
  else if cl.contains '.' && !(cl.contains ',') then
    (pyFloat ⟨cl⟩).map Value.vNum
  else if cl.contains ' ' && !(cl.contains ',') && !(cl.contains '.') then
    (pyInt ⟨listRemove cl ' '⟩).map Value.vInt
  else
    if cl.contains '.' then (pyFloat ⟨cl⟩).map Value.vNum
    else (pyInt ⟨cl⟩).map Value.vInt

/-- Source `parse_monetary_value` (inner function of `clean_numeric_values`):
non-strings pass through with no currency; strings without any digit,
comma, period or whitespace character are returned unchanged; otherwise
the string is stripped, the first currency marker extracted, all
currency-pattern matches removed, the six-way disambiguation applied,
and on parse failure the stripped string is returned with the detected
currency. -/
def parse_monetary_value (value : Value) : Value × Option String :=
  match value with
  | Value.vStr s0 =>
    if !(s0.data.any (fun c => c.isDigit || c = '.' || c = ',' || isPySpace c)) then
      (Value.vStr s0, none)
    else
      let s := pyStrip s0
      let currency := currencySearch s.data
      let cl : List Char := (pyStrip ⟨currencyRemove s.data⟩).data
      match monetaryCases cl with
      | some v => (v, currency)
      | none => (Value.vStr s, currency)
  | v => (v, none)

/-- The format disambiguation exactly as the specification words it:
"comma and period", "space and comma without period", "comma only",
"period only", "space only", otherwise int (or float if a period is
present).  Differs syntactically from the source's conditions (the
source's period case also admits spaces), used to check the two agree. -/
def monetaryCasesSpec (cl : List Char) : Option Value :=
  if cl.contains ',' && cl.contains '.' then
    (pyFloat ⟨listRemove cl ','⟩).map Value.vNum
  else if cl.contains ' ' && cl.contains ',' && !(cl.contains '.') then
    (pyFloat ⟨listReplace (listRemove cl ' ') ',' '.'⟩).map Value.vNum
  else if cl.contains ',' && !(cl.contains '.') && !(cl.contains ' ') then
    (pyFloat ⟨listReplace cl ',' '.'⟩).map Value.vNum
  else if cl.contains '.' && !(cl.contains ',') && !(cl.contains ' ') then
    (pyFloat ⟨cl⟩).map Value.vNum
  else if cl.contains ' ' && !(cl.contains ',') && !(cl.contains '.') then
    (pyInt ⟨listRemove cl ' '⟩).map Value.vInt
  else
    if cl.contains '.' then (pyFloat ⟨cl⟩).map Value.vNum
    else (pyInt ⟨cl⟩).map Value.vInt

/-- The normalizer as the specification words it end to end: the same
preprocessing, but the disambiguation cases as literally described. -/
def normalizeSpec (value : Value) : Value × Option String :=
  match value with
  | Value.vStr s0 =>
    if !(s0.data.any (fun c => c.isDigit || c = '.' || c = ',' || isPySpace c)) then
      (Value.vStr s0, none)
    else
      let s := pyStrip s0
      let currency := currencySearch s.data
      let cl : List Char := (pyStrip ⟨currencyRemove s.data⟩).data
      match monetaryCasesSpec cl with
      | some v => (v, currency)
      | none => (Value.vStr s, currency)
  | v => (v, none)

/-! ## Page selection (`extract_invoice_data` / `extract_invoice_data_image`) -/

/-- Python `list(range(a, b + 1))` over integers. -/
def pyRangeIncl (a b : Int) : List Int :=
  (List.range (b + 1 - a).toNat).map (fun i => a + i)

/-- Source `list(range(1, total_pages + 1))`: all 1-based page numbers. -/
def allPages (totalPages : Nat) : List Int :=
  pyRangeIncl 1 totalPages

/-- Helper for `str.split(sep)` on a single separator character. -/
def splitOnCharAux (sep : Char) : List Char → List Char → List (List Char)
  | [], cur => [cur.reverse]
  | c :: rest, cur =>
    if c = sep then cur.reverse :: splitOnCharAux sep rest []
    else splitOnCharAux sep rest (c :: cur)

/-- Source `str.split(sep)` for a single separator character (keeps empty
parts, exactly like Python). -/
def pySplitChar (s : String) (sep : Char) : List String :=
  (splitOnCharAux sep s.data []).map (fun l => ⟨l⟩)

/-- One comma-separated token of a pages spec: `int(spec)`, or, when it
contains `-`, `start, end = map(int, spec.split('-'))` expanded to
`range(start, end + 1)`.  `none` models the `ValueError` that aborts the
whole parse (wrong number of `-`-parts, or a non-numeric part). -/
def parsePageToken (tok : String) : Option (List Int) :=
  if tok.data.contains '-' then
    match pySplitChar tok '-' with
    | [a, b] =>
      match pyInt a, pyInt b with
      | some s, some e => some (pyRangeIncl s e)
      | _, _ => none
    | _ => none
  else
    (pyInt tok).map (fun n => [n])

/-- The whole `pages_to_process.split(',')` expansion loop; any token's
`ValueError` aborts the whole parse (`none`). -/
def parsePagesSpec (spec : String) : Option (List Int) :=
  (pySplitChar spec ',').foldl
    (fun acc tok =>
      match acc, parsePageToken tok with
      | some l, some tl => some (l ++ tl)
      | _, _ => none)
    (some [])

/-- Source `1 <= p <= total_pages`, the filter applied to expanded page
numbers. -/
def inPageRange (totalPages : Nat) (p : Int) : Bool :=
  decide (1 ≤ p) && decide (p ≤ (totalPages : Int))

/-- Page resolution in the text path (`extract_invoice_data`):
`"first"` and `"all"` are special, anything else is expanded and
filtered to `[1, total_pages]`; an empty or unparsable result falls back
to all pages. -/
def resolve_pages_text (totalPages : Nat) (spec : String) : List Int :=
  if spec = "first" then [1]
  else if spec = "all" then allPages totalPages
  else
    match parsePagesSpec spec with
    | some l =>
      let kept := l.filter (inPageRange totalPages)
      if kept = [] then allPages totalPages else kept
    | none => allPages totalPages

/-- Page resolution in the vision path (`extract_invoice_data_image`):
identical parsing, but an empty or unparsable result falls back to the
first page only. -/
def resolve_pages_vision (totalPages : Nat) (spec : String) : List Int :=
  if spec = "first" then [1]
  else if spec = "all" then allPages totalPages
  else
    match parsePagesSpec spec with
    | some l =>
      let kept := l.filter (inPageRange totalPages)
      if kept = [] then [1] else kept
    | none => [1]

/-! ## Per-page / per-batch header accumulation

`extract_invoice_data` (text) and `extract_invoice_data_image` (vision)
accumulate one header dict per invoice by folding the per-page (or
per-batch) extracted dicts, in processing order, into
`invoice_collections[invoice_number]["header"]`. -/

/-- Source `financial_fields` of the text path (`extract_invoice_data` and
`process_page_batch`). -/
def financial_fields_text : List String :=
  ["subtotal", "total", "tax", "items_total", "total_amount_due", "output_tax"]

/-- Source `financial_fields` of the vision path (`extract_invoice_data_image`),
which adds three more names. -/
def financial_fields_vision : List String :=
  ["subtotal", "total", "tax", "items_total", "total_amount_due",
   "output_tax", "discount", "shipping_cost", "vat"]

/-- Source `critical_header_fields` of the vision path. -/
def critical_header_fields : List String :=
  ["invoice_number", "issue_date", "po_number", "due_date",
   "order_number", "customer_id", "payment_terms", "shipping_terms"]

/-- One iteration of the text path's header-update loop: skip
`line_items` and falsy values; overwrite financial fields on the last
page of a multi-page invoice; otherwise first-write-wins. -/
def updateHeaderStepText (isLast isMulti : Bool) (acc : Header)
    (kv : String × Value) : Header :=
  if kv.1 ≠ "line_items" ∧ truthy kv.2 then
    if (isLast = true ∧ isMulti = true ∧ kv.1 ∈ financial_fields_text) ∨
        ¬ hContains acc kv.1 then
      hSet acc kv.1 kv.2
    else acc
  else acc

/-- The text path's header-update loop over one page's extracted dict. -/
def updateHeaderText (isLast isMulti : Bool) (acc page : Header) : Header :=
  page.foldl (updateHeaderStepText isLast isMulti) acc

/-- One iteration of the vision path's header-update loop: critical
fields are adopted whenever the stored value is missing or falsy;
financial fields are overwritten from the last page of a multi-page
invoice; everything else first-write-wins. -/
def updateHeaderStepVision (isLast isMulti : Bool) (acc : Header)
    (kv : String × Value) : Header :=
  if kv.1 ≠ "line_items" ∧ truthy kv.2 then
    if kv.1 ∈ critical_header_fields ∧
        (¬ hContains acc kv.1 ∨ ¬ truthy ((hGet acc kv.1).getD Value.vNone)) then
      hSet acc kv.1 kv.2
    else if (isLast = true ∧ isMulti = true ∧ kv.1 ∈ financial_fields_vision) ∨
        ¬ hContains acc kv.1 then
      hSet acc kv.1 kv.2
    else acc
  else acc

/-- The vision path's header-update loop over one page's extracted dict. -/
def updateHeaderVision (isLast isMulti : Bool) (acc page : Header) : Header :=
  page.foldl (updateHeaderStepVision isLast isMulti) acc

/-- One iteration of `process_page_batch`'s header merge: on the final
batch, financial fields always overwrite and other fields
first-write-wins; on earlier batches, first-write-wins only. -/
def updateHeaderStepBatch (isFinal : Bool) (acc : Header)
    (kv : String × Value) : Header :=
  if kv.1 ≠ "line_items" ∧ truthy kv.2 then
    if isFinal then
      if kv.1 ∈ financial_fields_text ∨ ¬ hContains acc kv.1 then
        hSet acc kv.1 kv.2
      else acc
    else
      if ¬ hContains acc kv.1 then hSet acc kv.1 kv.2 else acc
  else acc

/-- Source `process_page_batch`'s header merge over one batch's extracted dict. -/
def updateHeaderBatch (isFinal : Bool) (acc batch : Header) : Header :=
  batch.foldl (updateHeaderStepBatch isFinal) acc

/-- Fold a per-page update over the pages of one invoice in processing
order, flagging the last page (`is_last_page = page_idx == len - 1`). -/
def foldPagesWith (upd : Bool → Bool → Header → Header → Header)
    (isMulti : Bool) : Header → List Header → Header
  | acc, [] => acc
  | acc, [p] => upd true isMulti acc p
  | acc, p :: q :: rest => foldPagesWith upd isMulti (upd false isMulti acc p) (q :: rest)

/-- The text path's page-level header accumulation for one invoice
(`is_multi_page = len(page_nums) > 1`), starting from the empty header. -/
def process_pages_text (pages : List Header) : Header :=
  foldPagesWith updateHeaderText (decide (1 < pages.length)) [] pages

/-- The vision path's page-level header accumulation for one invoice,
before the backfill pass. -/
def process_pages_vision (pages : List Header) : Header :=
  foldPagesWith updateHeaderVision (decide (1 < pages.length)) [] pages

/-- Source `process_page_batch` applied to each batch of one invoice in order
(`is_final_batch = batch_num == total_batches`). -/
def process_batches (batches : List Header) : Header :=
  foldPagesWith (fun isLast _ acc p => updateHeaderBatch isLast acc p) true [] batches

/-- First truthy binding of `k` within one extracted page dict. -/
def firstTruthyEntry : Header → String → Option Value
  | [], _ => none
  | kv :: rest, k =>
    if kv.1 = k ∧ truthy kv.2 then some kv.2 else firstTruthyEntry rest k

/-- First truthy value for `k` across the pages, in processing order. -/
def firstTruthy : List Header → String → Option Value
  | [], _ => none
  | p :: rest, k =>
    match firstTruthyEntry p k with
    | some v => some v
    | none => firstTruthy rest k

/-- Source `page_data[p]["header"].get(field)` truthiness test of the vision
path's backfill scan: the stored value if present and truthy. -/
def pageTruthyGet (p : Header) (f : String) : Option Value :=
  match hGet p f with
  | some v => if truthy v then some v else none
  | none => none

/-- One page of the backfill scan: try every still-missing field against
this page (iterating a snapshot of the missing list, as the source's
`missing_critical_fields[:]` does), adopting and removing the found
ones. -/
def backfillPage (p : Header) : List String → Header × List String →
    Header × List String
  | [], st => st
  | f :: fs, st =>
    match pageTruthyGet p f with
    | some v => backfillPage p fs (hSet st.1 f v, st.2.erase f)
    | none => backfillPage p fs st

/-- The backfill scan over all stored per-page headers in order. -/
def backfillPages : Header → List String → List Header → Header
  | acc, _, [] => acc
  | acc, missing, p :: rest =>
    backfillPages (backfillPage p missing (acc, missing)).1
      (backfillPage p missing (acc, missing)).2 rest

/-- The critical fields missing (absent or falsy) from a header, the
list the backfill pass starts from. -/
def missingCritical (acc : Header) : List String :=
  critical_header_fields.filter
    (fun f => !(hContains acc f) || !(truthy ((hGet acc f).getD Value.vNone)))

/-- The post-processing backfill pass of `extract_invoice_data_image`:
collect the critical fields missing (absent or falsy) from the merged
header, then scan the stored per-page headers, adopting each missing
field from the first page that has a truthy value for it. -/
def backfill_missing_critical (acc : Header) (pages : List Header) : Header :=
  if missingCritical acc = [] then acc
  else backfillPages acc (missingCritical acc) pages

/-- The vision path's complete page-level header accumulation for one
invoice: the per-page fold, then (for multi-page invoices only) the
backfill pass over the stored per-page data. -/
def process_pages_vision_full (pages : List Header) : Header :=
  if 1 < pages.length then
    backfill_missing_critical (process_pages_vision pages) pages
  else process_pages_vision pages

/-- The value the backfill scan would adopt for `f`: the first stored
per-page header whose `f` is present and truthy. -/
def firstPageTruthy : List Header → String → Option Value
  | [], _ => none
  | p :: rest, f =>
    match pageTruthyGet p f with
    | some v => some v
    | none => firstPageTruthy rest f

/-! ## Merge engine (`merge_invoice_data`) -/

/-- The shape-relevant part of the configuration's schema JSON: the
`schema_data["schema"]["properties"]` key list when those keys exist,
and the `properties.line_items.items.properties` key list when that
chain exists (the source leaves the corresponding field list empty
otherwise). -/
structure SchemaData where
  header_props : Option (List String)
  line_item_props : Option (List String)

/-- Source `header_level_fields`: the schema's top-level property names with
`"line_items"` removed. -/
def header_level_fields (sd : SchemaData) : List String :=
  (sd.header_props.getD []).erase "line_items"

/-- Source `line_item_fields`: the schema's line-item property names, with
`"_source_page"` appended when not already present. -/
def line_item_fields (sd : SchemaData) : List String :=
  if "_source_page" ∈ sd.line_item_props.getD [] then sd.line_item_props.getD []
  else sd.line_item_props.getD [] ++ ["_source_page"]

/-- Source `field.startswith('_')`. -/
def startsWithUnderscore (s : String) : Bool :=
  match s.data with
  | c :: _ => c = '_'
  | [] => false

/-- Truthiness of an optional string (country codes in the context can
be `None` or empty). -/
def truthyStr : Option String → Bool
  | some s => s ≠ ""
  | none => false

/-- Source `if code and key not in merged_data: merged_data[key] = code`. -/
def injectCode (key : String) (c : Option String) (m : Header) : Header :=
  if truthyStr c && !(hContains m key) then hSet m key (Value.vStr (c.getD ""))
  else m

/-- The header part of `merge_invoice_data`'s per-invoice body: copy the
accumulated header, force the invoice number, inject the three country
codes when truthy and absent, then drop every key that is neither
declared in the schema's header fields nor `"line_items"` nor
`_`-prefixed.  (`line_items` and `_page_tracking` are carried outside
the header map in this model; the filter predicate keeps both kinds of
key.) -/
def merge_invoice_header (sd : SchemaData) (invoiceNumber : String)
    (header : Header) (sup buy ship : Option String) : Header :=
  (injectCode "ship_to_country_code" ship
      (injectCode "buyer_country_code" buy
        (injectCode "supplier_country_code" sup
          (hSet header "invoice_number" (Value.vStr invoiceNumber))))).filter
    (fun kv => decide (kv.1 ∈ header_level_fields sd) ||
      (kv.1 == "line_items") || startsWithUnderscore kv.1)

/-- The per-line-item projection of `merge_invoice_data`: keep only the
declared line-item fields, dropping `_source_page`. -/
def clean_line_item (sd : SchemaData) (item : Header) : Header :=
  (line_item_fields sd).foldl
    (fun ci f =>
      if f ≠ "_source_page" then
        match hGet item f with
        | some v => hSet ci f v
        | none => ci
      else ci)
    []

/-- The line-item projection applied to all collected line items. -/
def clean_line_items (sd : SchemaData) (items : List Header) : List Header :=
  items.map (clean_line_item sd)

/-! ## Stage chain

The langgraph stages are modelled as functions from the shared state to
a `Command` (a partial state update plus the next node).  External
effects — LLM calls, database checkpoint writes, timestamps — appear as
explicit oracle parameters; the parts of a stage that the claims do not
observe are abstracted as a `rest` continuation invoked only on the
non-short-circuited path. -/

/-- The nodes of the extraction graph, plus the terminal `END`. -/
inductive Node where
  | parse_message
  | identify_supplier
  | extract_country_codes
  | extract_invoice_data
  | extract_invoice_data_image
  | merge_invoice_data
  | prepare_response
  | handle_error
  | endNode
  deriving DecidableEq, Repr

/-- The response-envelope fields the claims observe. -/
structure Envelope where
  status : String
  error : Option String
  error_origin : Option String
  timestamp : String
  deriving DecidableEq, Repr

/-- The fields of the shared `AgentState` that the modelled stages read
(`state.get(k)` on an absent key gives `None`, hence the `Option`s). -/
structure AgentState where
  id : Option String
  status : Option String
  error : Option String
  brand_name : Option String
  supplier_address : Option String
  buyer_address : Option String
  ship_to_address : Option String
  extraction_method : Option String
  supplier_country_code : Option String
  buyer_country_code : Option String
  ship_to_country_code : Option String
  region : Option String
  invoice_data : Option Header
  invoice_collections : List (String × Header)
  output : Option Envelope
  deriving DecidableEq, Repr

/-- The partial state update a `Command` carries (a field is `none` when
the stage's update dict does not mention it). -/
structure StateUpdate where
  invoice_path : Option String
  processing_method : Option String
  pages : Option String
  processing_level : Option String
  processing_max_pages : Option Int
  status : Option String
  error : Option String
  output : Option Envelope
  supplier_country_code : Option (Option String)
  buyer_country_code : Option (Option String)
  ship_to_country_code : Option (Option String)
  region : Option String
  deriving DecidableEq, Repr

/-- Source `Command(goto=...)` with no update. -/
def noUpdate : StateUpdate :=
  ⟨none, none, none, none, none, none, none, none, none, none, none, none⟩

/-- Source `Command(update={"status": "error", "error": msg}, goto=...)`. -/
def mkErrorUpdate (msg : String) : StateUpdate :=
  { noUpdate with status := some "error", error := some msg }

/-- A langgraph `Command`: state update plus next node. -/
structure Command where
  update : StateUpdate
  goto : Node
  deriving DecidableEq, Repr

/-- Python `x or default` for an optional string (empty string is falsy). -/
def pyOr (o : Option String) (d : String) : String :=
  match o with
  | some s => if s = "" then d else s
  | none => d

/-- A JSON value in a position where the code checks `isinstance(x, int)`. -/
inductive JsonNum where
  | jint : Int → JsonNum
  | jother : JsonNum
  deriving DecidableEq, Repr

/-- The parsed request message's fields (`message_data.get(...)`). -/
structure RequestMsg where
  invoice_path : Option String
  processing_method : Option String
  pages : Option String
  processing_max_pages : Option JsonNum
  processing_level : Option String
  deriving DecidableEq, Repr

/-- The body of `parse_message` for a successfully decoded message:
invalid `processing_level` and `processing_max_pages` are coerced to
their defaults; `processing_method` is stored unvalidated. -/
def parse_message_fields (m : RequestMsg) : Command :=
  match m.invoice_path with
  | none =>
    Command.mk (mkErrorUpdate "Missing invoice_path in message") Node.handle_error
  | some path =>
    let processing_method := m.processing_method.getD "text"
    let pages := m.pages.getD "all"
    let processing_max_pages : Int :=
      match m.processing_max_pages with
      | some (JsonNum.jint n) => if n < 0 then 0 else n
      | some JsonNum.jother => 0
      | none => 0
    let pl0 := m.processing_level.getD "page"
    let processing_level := if pl0 = "page" ∨ pl0 = "invoice" then pl0 else "page"
    Command.mk
      { noUpdate with
        invoice_path := some path,
        processing_method := some processing_method,
        pages := some pages,
        processing_level := some processing_level,
        processing_max_pages := some processing_max_pages,
        status := some "parsed" }
      Node.identify_supplier

/-- Source `parse_message`: the argument is `none` on a `json.JSONDecodeError`. -/
def parse_message (msg : Option RequestMsg) : Command :=
  match msg with
  | none =>
    Command.mk (mkErrorUpdate "Failed to parse JSON message") Node.handle_error
  | some m => parse_message_fields m

/-- The image extensions `identify_supplier` treats as images. -/
def isImageExt (e : String) : Bool :=
  e ∈ [".jpg", ".jpeg", ".png", ".tiff", ".bmp", ".gif"]

/-- Source `use_vision = is_image or (is_pdf and processing_method == "image")`
on the lowercased file extension. -/
def use_vision (ext method : String) : Bool :=
  isImageExt ext || ((ext == ".pdf") && (method == "image"))

/-- Source `identify_supplier`'s entry guard; the rest of the stage (file
reads, LLM calls) is the continuation. -/
def identify_supplier (rest : AgentState → Command) (s : AgentState) : Command :=
  if s.status = some "error" then Command.mk noUpdate Node.handle_error
  else rest s

/-- Best-effort checkpoint write: the `try/except` around a persistence
call; a `False` return is only logged, an exception is caught and
logged, and the computation continues identically. -/
def bestEffortCheckpoint {α : Type} (ck : Except String Bool) (k : α) : α :=
  match ck with
  | Except.ok true => k
  | Except.ok false => k
  | Except.error _ => k

/-- The structured result of the country-code/region LLM call. -/
structure CCResult where
  supplier_country_code : Option String
  buyer_country_code : Option String
  ship_to_country_code : Option String
  region : String
  deriving DecidableEq, Repr

/-- Source `extract_country_codes`: guard, one structured LLM call (`llm`
oracle) with `"XX" → None` mapping and a best-effort `Received`
checkpoint (`ck` oracle); on LLM failure a deterministic fallback using
only the supplier address (`fallbackCC` oracle for the simple
country-code chain, then `determine_region_fallback`); the next node is
chosen by `extraction_method`. -/
def extract_country_codes (llm : Except String CCResult)
    (fallbackCC : Except String String) (ck : Except String Bool)
    (s : AgentState) : Command :=
  if s.status = some "error" then Command.mk noUpdate Node.handle_error
  else
    let codes : Option String × Option String × Option String × String :=
      match llm with
      | Except.ok r =>
        let sup := if r.supplier_country_code = some "XX" then none
          else r.supplier_country_code
        let buy := if r.buyer_country_code = some "XX" then none
          else r.buyer_country_code
        let ship := if r.ship_to_country_code = some "XX" then none
          else r.ship_to_country_code
        bestEffortCheckpoint ck (sup, buy, ship, r.region)
      | Except.error _ =>
        if truthyStr s.supplier_address then
          match fallbackCC with
          | Except.ok raw =>
            let cc := pyStrip raw
            (some cc, none, none,
              if cc ≠ "" then determine_region_fallback (some cc) else "UNKNOWN")
          | Except.error _ => (none, none, none, "UNKNOWN")
        else (none, none, none, "UNKNOWN")
    Command.mk
      { noUpdate with
        supplier_country_code := some codes.1,
        buyer_country_code := some codes.2.1,
        ship_to_country_code := some codes.2.2.1,
        region := some codes.2.2.2,
        status := some "country_codes_extracted" }
      (if s.extraction_method = some "vision" then Node.extract_invoice_data_image
       else Node.extract_invoice_data)

/-! ## Configuration resolver (`get_supplier_configuration`) -/

/-- A `prompt_registry` row (its `schema_json` column carried already
parsed; `json.loads` failures are not claim-relevant). -/
structure PromptRow where
  country_code : Option String
  brand_name : String
  processing_method : String
  is_active : Bool
  schema_json : SchemaData
  prompt : Option String
  special_instructions : Option String

/-- A `brand_feedback` row. -/
structure FeedbackRow where
  country_code : Option String
  brand_name : String
  feedback : Option String

/-- The configuration database tables. -/
structure ConfigStore where
  prompt_registry : List PromptRow
  brand_feedback : List FeedbackRow

/-- The `prompt_registry` `SELECT ... WHERE country_code = ? AND
brand_name = ? AND processing_method = ? AND is_active = 1` with
`fetchone` (first matching row). -/
def queryRegistry (store : ConfigStore) (country : Option String)
    (brand method : String) : Option PromptRow :=
  store.prompt_registry.find?
    (fun r => r.country_code == country && r.brand_name == brand &&
      r.processing_method == method && r.is_active)

/-- Prompt plus special instructions, appended when truthy. -/
def rowInstructions (row : PromptRow) : String :=
  let base := (row.prompt).getD ""
  match row.special_instructions with
  | some si => if si ≠ "" then base ++ "\n\nSpecial Instructions:\n" ++ si else base
  | none => base

/-- Append stored feedback for (country, brand) when present and truthy. -/
def withFeedback (store : ConfigStore) (country : Option String)
    (brand : String) (instr : String) : String :=
  match store.brand_feedback.find?
      (fun r => r.country_code == country && r.brand_name == brand) with
  | some fr =>
    match fr.feedback with
    | some fb =>
      if fb ≠ "" then
        instr ++ "\n\nFeedback Notes from end users during previous episodes:\n" ++ fb
      else instr
    | none => instr
  | none => instr

/-- Source `get_supplier_configuration`: look up (country, brand.lower(),
method); on a miss retry with brand `"default"`; when even the default
row is missing, raise (`Except.error`). -/
def get_supplier_configuration (store : ConfigStore)
    (country_code : Option String) (brand_name processing_method : String) :
    Except String (SchemaData × String) :=
  match queryRegistry store country_code (pyLower brand_name) processing_method with
  | some row =>
    Except.ok (row.schema_json,
      withFeedback store country_code (pyLower brand_name) (rowInstructions row))
  | none =>
    match queryRegistry store country_code "default" processing_method with
    | some row =>
      Except.ok (row.schema_json,
        withFeedback store country_code (pyLower brand_name) (rowInstructions row))
    | none =>
      Except.error ("No default configuration found for " ++ processing_method)

/-- Source `extract_invoice_data`'s entry: guard, then configuration
resolution; a configuration exception is caught by the stage's outer
handler and produces the error command (an absent brand name also
raises, in `brand_name.lower()`).  The remaining extraction work is the
continuation. -/
def extract_invoice_data (store : ConfigStore)
    (rest : SchemaData × String → Command) (s : AgentState) : Command :=
  if s.status = some "error" then Command.mk noUpdate Node.handle_error
  else
    match s.brand_name with
    | none =>
      Command.mk (mkErrorUpdate "Error extracting invoice data: brand_name")
        Node.handle_error
    | some brand =>
      match get_supplier_configuration store s.supplier_country_code brand "text" with
      | Except.ok cfg => rest cfg
      | Except.error e =>
        Command.mk (mkErrorUpdate ("Error extracting invoice data: " ++ e))
          Node.handle_error

/-- Source `extract_invoice_data_image`'s entry: its guard also short-circuits
on a missing brand name; then configuration resolution as in the text
path but with method `"image"`. -/
def extract_invoice_data_image (store : ConfigStore)
    (rest : SchemaData × String → Command) (s : AgentState) : Command :=
  if s.status = some "error" ∨ ¬ truthyStr s.brand_name then
    Command.mk noUpdate Node.handle_error
  else
    match s.brand_name with
    | none => Command.mk noUpdate Node.handle_error
    | some brand =>
      match get_supplier_configuration store s.supplier_country_code brand "image" with
      | Except.ok cfg => rest cfg
      | Except.error e =>
        Command.mk (mkErrorUpdate ("Error extracting invoice data from image: " ++ e))
          Node.handle_error

/-- The best-effort `Processing` checkpoint in both extraction paths:
attempted only when some invoice number was discovered, and the
surrounding computation continues with the same `invoice_pages` either
way. -/
def record_processing_checkpoint (ck : Except String Bool)
    (invoice_pages : List (String × List String)) : List (String × List String) :=
  match invoice_pages with
  | [] => invoice_pages
  | _ => bestEffortCheckpoint ck invoice_pages

/-- Source `merge_invoice_data`'s entry guards: error short-circuit, then the
empty-collections error; the merge work is the continuation. -/
def merge_invoice_data (rest : AgentState → Command) (s : AgentState) : Command :=
  if s.status = some "error" then Command.mk noUpdate Node.handle_error
  else if s.invoice_collections = [] then
    Command.mk (mkErrorUpdate "No invoice collections found in state")
      Node.handle_error
  else rest s

/-- Source `prepare_response`'s entry: on an already-failed context it builds
the error envelope itself, writes it to `output`, and goes to `END`
(not to `handle_error`); likewise for missing `invoice_data`.  The
success path is the continuation (`ts` is the timestamp oracle). -/
def prepare_response (rest : AgentState → Command) (ts : String)
    (s : AgentState) : Command :=
  if s.status = some "error" then
    Command.mk
      { noUpdate with
        output := some ⟨"error",
          some (pyOr s.error "Unknown error during extraction"), none, ts⟩ }
      Node.endNode
  else if s.invoice_data = none then
    Command.mk
      { noUpdate with
        output := some ⟨"error", some "Missing invoice data in state", none, ts⟩ }
      Node.endNode
  else rest s

/-- Source `handle_error` (terminal): build the error envelope (with
`error_origin` from the last status), best-effort `Failed` checkpoint
when an id is present, write the envelope to `output`, return nothing
further. -/
def handle_error (ck : Except String Bool) (ts : String)
    (s : AgentState) : AgentState :=
  let envelope : Envelope :=
    ⟨"error", some (pyOr s.error "Unknown error during invoice extraction"),
      s.status, ts⟩
  match s.id with
  | some _ => bestEffortCheckpoint ck { s with output := some envelope }
  | none => { s with output := some envelope }

/-! ## Theorems

All definitions above embed `invoice_agent/extraction.py`; everything
below proves properties about them. -/

theorem hGet_hSet_self (h : Header) (k : String) (v : Value) :
    hGet (hSet h k v) k = some v := by
  induction h with
  | nil => simp [hSet, hGet]
  | cons p t ih =>
    by_cases hk : p.1 = k
    · simp [hSet, hGet, hk]
    · simp [hSet, hGet, hk, ih]

theorem hGet_hSet_ne (h : Header) (k k' : String) (v : Value) (hne : k' ≠ k) :
    hGet (hSet h k' v) k = hGet h k := by
  induction h with
  | nil => simp [hSet, hGet, hne]
  | cons p t ih =>
    by_cases hk : p.1 = k'
    · simp [hSet, hGet, hk, hne]
    · simp [hSet, hGet, hk, ih]

theorem fin_text_ne_line_items : ∀ k ∈ financial_fields_text, k ≠ "line_items" := by
  decide

theorem crit_ne_line_items : ∀ k ∈ critical_header_fields, k ≠ "line_items" := by
  decide

theorem crit_not_fin_vision :
    ∀ k ∈ critical_header_fields, k ∉ financial_fields_vision := by
  decide

theorem crit_not_fin_text :
    ∀ k ∈ critical_header_fields, k ∉ financial_fields_text := by
  decide

theorem crit_nodup : critical_header_fields.Nodup := by
  decide

theorem firstTruthyEntry_truthy {p : Header} {k : String} {v : Value}
    (h : firstTruthyEntry p k = some v) : truthy v = true := by
  induction p with
  | nil => simp [firstTruthyEntry] at h
  | cons kv rest ih =>
    unfold firstTruthyEntry at h
    split_ifs at h with hc
    · cases h; exact hc.2
    · exact ih h

theorem firstTruthy_truthy {pages : List Header} {k : String} {v : Value}
    (h : firstTruthy pages k = some v) : truthy v = true := by
  induction pages with
  | nil => simp [firstTruthy] at h
  | cons p rest ih =>
    unfold firstTruthy at h
    cases hp : firstTruthyEntry p k with
    | some w => rw [hp] at h; cases h; exact firstTruthyEntry_truthy hp
    | none => rw [hp] at h; exact ih h

/-- If a page has no truthy binding of `k`, the first binding of `k` (if
any) is falsy. -/
theorem firstTruthyEntry_none_hGet {p : Header} {k : String}
    (h : firstTruthyEntry p k = none) :
    ∀ v, hGet p k = some v → truthy v = false := by
  induction p with
  | nil => intro v hv; simp [hGet] at hv
  | cons kv rest ih =>
    intro v hv
    unfold firstTruthyEntry at h
    unfold hGet at hv
    by_cases hk : kv.1 = k
    · rw [if_pos hk] at hv
      cases hv
      cases htv : truthy kv.2 with
      | false => rfl
      | true => rw [if_pos ⟨hk, htv⟩] at h; exact Option.noConfusion h
    · rw [if_neg hk] at hv
      have h' : firstTruthyEntry rest k = none := by
        by_cases hc : kv.1 = k ∧ truthy kv.2
        · exact absurd hc.1 hk
        · rw [if_neg hc] at h; exact h
      exact ih h' v hv

theorem firstTruthyEntry_none_pageTruthyGet {p : Header} {k : String}
    (h : firstTruthyEntry p k = none) : pageTruthyGet p k = none := by
  unfold pageTruthyGet
  cases hv : hGet p k with
  | none => rfl
  | some v => simp [firstTruthyEntry_none_hGet h v hv]

theorem firstTruthy_none_pageTruthyGet {pages : List Header} {k : String}
    (h : firstTruthy pages k = none) :
    ∀ p ∈ pages, pageTruthyGet p k = none := by
  induction pages with
  | nil => intro p hp; cases hp
  | cons q rest ih =>
    intro p hp
    unfold firstTruthy at h
    cases hq : firstTruthyEntry q k with
    | some w => rw [hq] at h; cases h
    | none =>
      rw [hq] at h
      rcases List.mem_cons.mp hp with rfl | hp'
      · exact firstTruthyEntry_none_pageTruthyGet hq
      · exact ih h p hp'

/-! ### Step-level lemmas for the three header-update loops -/

theorem stepText_get_ne {l m : Bool} {acc : Header} {kv : String × Value}
    {k : String} (hne : kv.1 ≠ k) :
    hGet (updateHeaderStepText l m acc kv) k = hGet acc k := by
  unfold updateHeaderStepText
  split_ifs <;> first | rfl | exact hGet_hSet_ne _ _ _ _ hne

theorem stepVision_get_ne {l m : Bool} {acc : Header} {kv : String × Value}
    {k : String} (hne : kv.1 ≠ k) :
    hGet (updateHeaderStepVision l m acc kv) k = hGet acc k := by
  unfold updateHeaderStepVision
  split_ifs <;> first | rfl | exact hGet_hSet_ne _ _ _ _ hne

theorem stepBatch_get_ne {l : Bool} {acc : Header} {kv : String × Value}
    {k : String} (hne : kv.1 ≠ k) :
    hGet (updateHeaderStepBatch l acc kv) k = hGet acc k := by
  unfold updateHeaderStepBatch
  split_ifs <;> first | rfl | exact hGet_hSet_ne _ _ _ _ hne

theorem foldl_get_of_ne {step : Header → (String × Value) → Header} {k : String}
    (hstep : ∀ acc kv, kv.1 ≠ k → hGet (step acc kv) k = hGet acc k) :
    ∀ (page : List (String × Value)) (acc : Header),
      (∀ kv ∈ page, kv.1 ≠ k) → hGet (page.foldl step acc) k = hGet acc k := by
  intro page
  induction page with
  | nil => intro acc _; rfl
  | cons kv rest ih =>
    intro acc hall
    rw [List.foldl_cons,
      ih _ (fun kv' h' => hall kv' (List.mem_cons_of_mem _ h'))]
    exact hstep acc kv (hall kv (List.mem_cons_self _ _))

/-- The text update loop preserves an existing value of `k` unless the
last-page financial override can fire for `k`. -/
theorem updateHeaderText_preserve {k : String} {l m : Bool}
    (hk : ¬(l = true ∧ m = true ∧ k ∈ financial_fields_text)) :
    ∀ (page acc : Header) (v : Value), hGet acc k = some v →
      hGet (updateHeaderText l m acc page) k = some v := by
  intro page
  induction page with
  | nil => intro acc v h; exact h
  | cons kv rest ih =>
    intro acc v h
    have hstep : hGet (updateHeaderStepText l m acc kv) k = some v := by
      by_cases hne : kv.1 = k
      · unfold updateHeaderStepText
        split_ifs with h1 h2
        · rcases h2 with hov | hnc
          · exact absurd ⟨hov.1, hov.2.1, hne ▸ hov.2.2⟩ hk
          · exact absurd (show hContains acc kv.1 = true by
              simp [hContains, hne, h]) hnc
        · exact h
        · exact h
      · rw [stepText_get_ne hne]; exact h
    exact ih (updateHeaderStepText l m acc kv) v hstep

/-- Starting from a header without `k`, the text update loop picks the
first truthy `k`-binding of the page. -/
theorem updateHeaderText_absent {k : String} {l m : Bool}
    (hk : ¬(l = true ∧ m = true ∧ k ∈ financial_fields_text))
    (hli : k ≠ "line_items") :
    ∀ (page acc : Header), hGet acc k = none →
      hGet (updateHeaderText l m acc page) k = firstTruthyEntry page k := by
  intro page
  induction page with
  | nil => intro acc h; exact h
  | cons kv rest ih =>
    intro acc h
    by_cases hc : kv.1 = k ∧ truthy kv.2
    · have hstep : updateHeaderStepText l m acc kv = hSet acc kv.1 kv.2 := by
        unfold updateHeaderStepText
        rw [if_pos ⟨by rw [hc.1]; exact hli, hc.2⟩,
          if_pos (Or.inr (show ¬ hContains acc kv.1 = true by
            simp [hContains, hc.1, h]))]
      rw [show updateHeaderText l m acc (kv :: rest) =
        updateHeaderText l m (updateHeaderStepText l m acc kv) rest from rfl,
        hstep]
      have hget : hGet (hSet acc kv.1 kv.2) k = some kv.2 := by
        rw [hc.1]; exact hGet_hSet_self acc k kv.2
      rw [updateHeaderText_preserve hk rest _ kv.2 hget,
        show firstTruthyEntry (kv :: rest) k =
          if kv.1 = k ∧ truthy kv.2 then some kv.2
          else firstTruthyEntry rest k from rfl,
        if_pos hc]
    · have hstep : hGet (updateHeaderStepText l m acc kv) k = none := by
        by_cases hne : kv.1 = k
        · unfold updateHeaderStepText
          rw [if_neg (fun hand => hc ⟨hne, hand.2⟩)]
          exact h
        · rw [stepText_get_ne hne]; exact h
      rw [show updateHeaderText l m acc (kv :: rest) =
        updateHeaderText l m (updateHeaderStepText l m acc kv) rest from rfl,
        ih _ hstep,
        show firstTruthyEntry (kv :: rest) k =
          if kv.1 = k ∧ truthy kv.2 then some kv.2
          else firstTruthyEntry rest k from rfl,
        if_neg hc]

/-- A page without any truthy `k`-binding leaves `k` untouched in the
text update loop (in particular, an empty last-page financial value
keeps the earlier one). -/
theorem updateHeaderText_no_truthy {k : String} {l m : Bool} :
    ∀ (page : Header), firstTruthyEntry page k = none →
      ∀ acc, hGet (updateHeaderText l m acc page) k = hGet acc k := by
  intro page
  induction page with
  | nil => intro _ acc; rfl
  | cons kv rest ih =>
    intro h acc
    have hrest : firstTruthyEntry rest k = none := by
      unfold firstTruthyEntry at h
      by_cases hc : kv.1 = k ∧ truthy kv.2
      · rw [if_pos hc] at h; exact Option.noConfusion h
      · rw [if_neg hc] at h; exact h
    have hstep : hGet (updateHeaderStepText l m acc kv) k = hGet acc k := by
      by_cases hne : kv.1 = k
      · have hnt : ¬ (kv.1 = k ∧ truthy kv.2) := by
          intro hand
          unfold firstTruthyEntry at h
          rw [if_pos hand] at h
          exact Option.noConfusion h
        unfold updateHeaderStepText
        rw [if_neg (fun hand => hnt ⟨hne, hand.2⟩)]
      · exact stepText_get_ne hne
    rw [show updateHeaderText l m acc (kv :: rest) =
      updateHeaderText l m (updateHeaderStepText l m acc kv) rest from rfl,
      ih hrest _, hstep]

/-- On the last page of a multi-page invoice, a truthy financial value
always ends up in the header (override). -/
theorem updateHeaderText_final_financial {k : String} {v : Value}
    (hfin : k ∈ financial_fields_text) :
    ∀ (page acc : Header), (page.map Prod.fst).Nodup → (k, v) ∈ page →
      truthy v = true → hGet (updateHeaderText true true acc page) k = some v := by
  intro page
  induction page with
  | nil => intro acc _ hmem _; cases hmem
  | cons kv rest ih =>
    intro acc hnd hmem hv
    rcases List.mem_cons.mp hmem with heq | hmem'
    · have hstep : updateHeaderStepText true true acc kv = hSet acc k v := by
        rw [← heq]
        unfold updateHeaderStepText
        rw [if_pos ⟨fin_text_ne_line_items k hfin, hv⟩,
          if_pos (Or.inl ⟨rfl, rfl, hfin⟩)]
      rw [show updateHeaderText true true acc (kv :: rest) =
        updateHeaderText true true (updateHeaderStepText true true acc kv) rest from rfl,
        hstep]
      have hrest : ∀ kv' ∈ rest, kv'.1 ≠ k := by
        intro kv' h' hkk
        apply (List.nodup_cons.mp hnd).1
        have h1 : kv'.1 ∈ rest.map Prod.fst := List.mem_map_of_mem Prod.fst h'
        rw [show kv.1 = k from by rw [← heq], ← hkk]
        exact h1
      rw [show updateHeaderText true true (hSet acc k v) rest =
        List.foldl (updateHeaderStepText true true) (hSet acc k v) rest from rfl,
        @foldl_get_of_ne (updateHeaderStepText true true) k
          (fun _ _ hne => stepText_get_ne hne) rest (hSet acc k v) hrest]
      exact hGet_hSet_self acc k v
    · exact ih _ (List.nodup_cons.mp hnd).2 hmem' hv

/-- On the final batch, a truthy financial value always ends up in the
header (override). -/
theorem updateHeaderBatch_final_financial {k : String} {v : Value}
    (hfin : k ∈ financial_fields_text) :
    ∀ (batch acc : Header), (batch.map Prod.fst).Nodup → (k, v) ∈ batch →
      truthy v = true → hGet (updateHeaderBatch true acc batch) k = some v := by
  intro batch
  induction batch with
  | nil => intro acc _ hmem _; cases hmem
  | cons kv rest ih =>
    intro acc hnd hmem hv
    rcases List.mem_cons.mp hmem with heq | hmem'
    · have hstep : updateHeaderStepBatch true acc kv = hSet acc k v := by
        rw [← heq]
        unfold updateHeaderStepBatch
        rw [if_pos ⟨fin_text_ne_line_items k hfin, hv⟩, if_pos rfl,
          if_pos (Or.inl hfin)]
      rw [show updateHeaderBatch true acc (kv :: rest) =
        updateHeaderBatch true (updateHeaderStepBatch true acc kv) rest from rfl,
        hstep]
      have hrest : ∀ kv' ∈ rest, kv'.1 ≠ k := by
        intro kv' h' hkk
        apply (List.nodup_cons.mp hnd).1
        have h1 : kv'.1 ∈ rest.map Prod.fst := List.mem_map_of_mem Prod.fst h'
        rw [show kv.1 = k from by rw [← heq], ← hkk]
        exact h1
      rw [show updateHeaderBatch true (hSet acc k v) rest =
        List.foldl (updateHeaderStepBatch true) (hSet acc k v) rest from rfl,
        @foldl_get_of_ne (updateHeaderStepBatch true) k
          (fun _ _ hne => stepBatch_get_ne hne) rest (hSet acc k v) hrest]
      exact hGet_hSet_self acc k v
    · exact ih _ (List.nodup_cons.mp hnd).2 hmem' hv

/-- The vision update loop preserves an existing truthy value of a
critical field. -/
theorem updateHeaderVision_preserve_crit {k : String}
    (hcrit : k ∈ critical_header_fields) {l m : Bool} :
    ∀ (page acc : Header) (v : Value), hGet acc k = some v → truthy v = true →
      hGet (updateHeaderVision l m acc page) k = some v := by
  intro page
  induction page with
  | nil => intro acc v h _; exact h
  | cons kv rest ih =>
    intro acc v h hv
    have hstep : hGet (updateHeaderStepVision l m acc kv) k = some v := by
      by_cases hne : kv.1 = k
      · unfold updateHeaderStepVision
        split_ifs with h1 h2 h3
        · rcases h2.2 with hnc | hnt
          · exact absurd (show hContains acc kv.1 = true by
              simp [hContains, hne, h]) hnc
          · rw [hne, h] at hnt
            exact absurd hv hnt
        · rcases h3 with hov | hnc
          · exact absurd (hne ▸ hov.2.2) (crit_not_fin_vision k hcrit)
          · exact absurd (show hContains acc kv.1 = true by
              simp [hContains, hne, h]) hnc
        · exact h
        · exact h
      · rw [stepVision_get_ne hne]; exact h
    exact ih (updateHeaderStepVision l m acc kv) v hstep hv

/-- Starting from a header without a critical field `k`, the vision
update loop picks the first truthy `k`-binding of the page. -/
theorem updateHeaderVision_absent_crit {k : String}
    (hcrit : k ∈ critical_header_fields) {l m : Bool} :
    ∀ (page acc : Header), hGet acc k = none →
      hGet (updateHeaderVision l m acc page) k = firstTruthyEntry page k := by
  intro page
  induction page with
  | nil => intro acc h; exact h
  | cons kv rest ih =>
    intro acc h
    by_cases hc : kv.1 = k ∧ truthy kv.2
    · have hstep : updateHeaderStepVision l m acc kv = hSet acc kv.1 kv.2 := by
        unfold updateHeaderStepVision
        rw [if_pos ⟨by rw [hc.1]; exact crit_ne_line_items k hcrit, hc.2⟩,
          if_pos ⟨hc.1 ▸ hcrit, Or.inl (show ¬ hContains acc kv.1 = true by
            simp [hContains, hc.1, h])⟩]
      rw [show updateHeaderVision l m acc (kv :: rest) =
        updateHeaderVision l m (updateHeaderStepVision l m acc kv) rest from rfl,
        hstep]
      have hget : hGet (hSet acc kv.1 kv.2) k = some kv.2 := by
        rw [hc.1]; exact hGet_hSet_self acc k kv.2
      rw [updateHeaderVision_preserve_crit hcrit rest _ kv.2 hget hc.2,
        show firstTruthyEntry (kv :: rest) k =
          if kv.1 = k ∧ truthy kv.2 then some kv.2
          else firstTruthyEntry rest k from rfl,
        if_pos hc]
    · have hstep : hGet (updateHeaderStepVision l m acc kv) k = none := by
        by_cases hne : kv.1 = k
        · unfold updateHeaderStepVision
          rw [if_neg (fun hand => hc ⟨hne, hand.2⟩)]
          exact h
        · rw [stepVision_get_ne hne]; exact h
      rw [show updateHeaderVision l m acc (kv :: rest) =
        updateHeaderVision l m (updateHeaderStepVision l m acc kv) rest from rfl,
        ih _ hstep,
        show firstTruthyEntry (kv :: rest) k =
          if kv.1 = k ∧ truthy kv.2 then some kv.2
          else firstTruthyEntry rest k from rfl,
        if_neg hc]

/-! ### Fold-level lemmas -/

theorem foldPagesWith_preserve
    (upd : Bool → Bool → Header → Header → Header) (k : String) (m : Bool)
    (P1 : ∀ (l : Bool) (acc p : Header) (v : Value), hGet acc k = some v →
      truthy v = true → hGet (upd l m acc p) k = some v) :
    ∀ (pages : List Header) (acc : Header) (v : Value), hGet acc k = some v →
      truthy v = true → hGet (foldPagesWith upd m acc pages) k = some v := by
  intro pages
  induction pages with
  | nil => intro acc v h _; exact h
  | cons p rest ih =>
    intro acc v h hv
    cases rest with
    | nil => exact P1 true acc p v h hv
    | cons q rest2 => exact ih (upd false m acc p) v (P1 false acc p v h hv) hv

theorem foldPagesWith_firstTruthy
    (upd : Bool → Bool → Header → Header → Header) (k : String) (m : Bool)
    (P1 : ∀ (l : Bool) (acc p : Header) (v : Value), hGet acc k = some v →
      truthy v = true → hGet (upd l m acc p) k = some v)
    (P2 : ∀ (l : Bool) (acc p : Header), hGet acc k = none →
      hGet (upd l m acc p) k = firstTruthyEntry p k) :
    ∀ (pages : List Header) (acc : Header), hGet acc k = none →
      hGet (foldPagesWith upd m acc pages) k = firstTruthy pages k := by
  intro pages
  induction pages with
  | nil => intro acc h; exact h
  | cons p rest ih =>
    intro acc h
    cases rest with
    | nil =>
      rw [show foldPagesWith upd m acc [p] = upd true m acc p from rfl,
        P2 true acc p h]
      cases hp : firstTruthyEntry p k <;> simp [firstTruthy, hp]
    | cons q rest2 =>
      have h2 : hGet (upd false m acc p) k = firstTruthyEntry p k :=
        P2 false acc p h
      cases hp : firstTruthyEntry p k with
      | some v =>
        have hv := firstTruthyEntry_truthy hp
        have h3 : hGet (upd false m acc p) k = some v := by rw [h2, hp]
        rw [show foldPagesWith upd m acc (p :: q :: rest2) =
          foldPagesWith upd m (upd false m acc p) (q :: rest2) from rfl,
          foldPagesWith_preserve upd k m P1 (q :: rest2) _ v h3 hv]
        simp [firstTruthy, hp]
      | none =>
        have h3 : hGet (upd false m acc p) k = none := by rw [h2, hp]
        rw [show foldPagesWith upd m acc (p :: q :: rest2) =
          foldPagesWith upd m (upd false m acc p) (q :: rest2) from rfl,
          ih _ h3]
        simp [firstTruthy, hp]

theorem foldl_firstTruthy (u : Header → Header → Header) (k : String)
    (P1 : ∀ (acc p : Header) (v : Value), hGet acc k = some v →
      truthy v = true → hGet (u acc p) k = some v)
    (P2 : ∀ (acc p : Header), hGet acc k = none →
      hGet (u acc p) k = firstTruthyEntry p k) :
    ∀ (ps : List Header) (acc : Header), hGet acc k = none →
      hGet (ps.foldl u acc) k = firstTruthy ps k := by
  intro ps
  induction ps with
  | nil => intro acc h; exact h
  | cons p rest ih =>
    intro acc h
    rw [List.foldl_cons]
    cases hp : firstTruthyEntry p k with
    | some v =>
      have hv := firstTruthyEntry_truthy hp
      have h3 : hGet (u acc p) k = some v := by rw [P2 acc p h, hp]
      have h4 : ∀ (qs : List Header) (a : Header), hGet a k = some v →
          hGet (qs.foldl u a) k = some v := by
        intro qs
        induction qs with
        | nil => intro a ha; exact ha
        | cons q qs' ihq =>
          intro a ha
          rw [List.foldl_cons]
          exact ihq _ (P1 a q v ha hv)
      rw [h4 rest _ h3]
      simp [firstTruthy, hp]
    | none =>
      have h3 : hGet (u acc p) k = none := by rw [P2 acc p h, hp]
      rw [ih _ h3]
      simp [firstTruthy, hp]

theorem foldPagesWith_append_last
    (upd : Bool → Bool → Header → Header → Header) (m : Bool) :
    ∀ (ps : List Header) (plast acc : Header),
      foldPagesWith upd m acc (ps ++ [plast]) =
        upd true m (ps.foldl (upd false m) acc) plast := by
  intro ps
  induction ps with
  | nil => intro plast acc; rfl
  | cons p ps' ih =>
    intro plast acc
    cases ps' with
    | nil => rfl
    | cons p2 ps'' => exact ih plast (upd false m acc p)

/-! ### Accumulation results per path -/

theorem process_pages_text_get (pages : List Header) (k : String)
    (hnf : k ∉ financial_fields_text) (hli : k ≠ "line_items") :
    hGet (process_pages_text pages) k = firstTruthy pages k := by
  unfold process_pages_text
  refine foldPagesWith_firstTruthy updateHeaderText k _ ?_ ?_ pages [] rfl
  · intro l acc p v h _
    exact updateHeaderText_preserve (fun hx => hnf hx.2.2) p acc v h
  · intro l acc p h
    exact updateHeaderText_absent (fun hx => hnf hx.2.2) hli p acc h

theorem process_pages_vision_get (pages : List Header) (k : String)
    (hcrit : k ∈ critical_header_fields) :
    hGet (process_pages_vision pages) k = firstTruthy pages k := by
  unfold process_pages_vision
  refine foldPagesWith_firstTruthy updateHeaderVision k _ ?_ ?_ pages [] rfl
  · intro l acc p v h hv
    exact updateHeaderVision_preserve_crit hcrit p acc v h hv
  · intro l acc p h
    exact updateHeaderVision_absent_crit hcrit p acc h

theorem process_pages_text_financial_last (ps : List Header) (plast : Header)
    (k : String) (v : Value) (hne : ps ≠ [])
    (hnd : (plast.map Prod.fst).Nodup) (hmem : (k, v) ∈ plast)
    (hv : truthy v = true) (hfin : k ∈ financial_fields_text) :
    hGet (process_pages_text (ps ++ [plast])) k = some v := by
  unfold process_pages_text
  have hm : decide (1 < (ps ++ [plast]).length) = true := by
    cases ps with
    | nil => exact absurd rfl hne
    | cons a l =>
      apply decide_eq_true
      simp [List.length_append]
  rw [hm, foldPagesWith_append_last]
  exact updateHeaderText_final_financial hfin plast _ hnd hmem hv

theorem process_batches_financial_final (bs : List Header) (blast : Header)
    (k : String) (v : Value) (hnd : (blast.map Prod.fst).Nodup)
    (hmem : (k, v) ∈ blast) (hv : truthy v = true)
    (hfin : k ∈ financial_fields_text) :
    hGet (process_batches (bs ++ [blast])) k = some v := by
  unfold process_batches
  rw [foldPagesWith_append_last]
  exact updateHeaderBatch_final_financial hfin blast _ hnd hmem hv

theorem process_pages_text_keep_earlier (ps : List Header) (plast : Header)
    (k : String) (hfe : firstTruthyEntry plast k = none)
    (hli : k ≠ "line_items") :
    hGet (process_pages_text (ps ++ [plast])) k = firstTruthy ps k := by
  unfold process_pages_text
  rw [foldPagesWith_append_last, updateHeaderText_no_truthy plast hfe]
  refine foldl_firstTruthy _ k ?_ ?_ ps [] rfl
  · intro acc p v h _
    exact updateHeaderText_preserve (fun hx => Bool.false_ne_true hx.1) p acc v h
  · intro acc p h
    exact updateHeaderText_absent (fun hx => Bool.false_ne_true hx.1) hli p acc h

/-! ### Backfill lemmas -/

theorem backfillPage_get_not_mem (p : Header) :
    ∀ (L : List String) (st : Header × List String) {f : String},
      f ∉ L → hGet (backfillPage p L st).1 f = hGet st.1 f := by
  intro L
  induction L with
  | nil => intro st f _; rfl
  | cons g L' ih =>
    intro st f hf
    have hg : g ≠ f := fun h => hf (h ▸ List.mem_cons_self g L')
    have hf' : f ∉ L' := fun h => hf (List.mem_cons_of_mem _ h)
    cases hpg : pageTruthyGet p g with
    | some v =>
      rw [show backfillPage p (g :: L') st =
        backfillPage p L' (hSet st.1 g v, st.2.erase g) from by
          rw [backfillPage, hpg], ih _ hf']
      exact hGet_hSet_ne st.1 f g v hg
    | none =>
      rw [show backfillPage p (g :: L') st = backfillPage p L' st from by
        rw [backfillPage, hpg]]
      exact ih _ hf'

theorem backfillPage_snd_subset (p : Header) :
    ∀ (L : List String) (st : Header × List String),
      (backfillPage p L st).2 ⊆ st.2 := by
  intro L
  induction L with
  | nil => intro st; exact fun a h => h
  | cons g L' ih =>
    intro st
    cases hpg : pageTruthyGet p g with
    | some v =>
      rw [show backfillPage p (g :: L') st =
        backfillPage p L' (hSet st.1 g v, st.2.erase g) from by
          rw [backfillPage, hpg]]
      exact fun a h => List.erase_subset g st.2 (ih (hSet st.1 g v, st.2.erase g) h)
    | none =>
      rw [show backfillPage p (g :: L') st = backfillPage p L' st from by
        rw [backfillPage, hpg]]
      exact ih st

theorem backfillPage_snd_nodup (p : Header) :
    ∀ (L : List String) (st : Header × List String),
      st.2.Nodup → (backfillPage p L st).2.Nodup := by
  intro L
  induction L with
  | nil => intro st h; exact h
  | cons g L' ih =>
    intro st h
    cases hpg : pageTruthyGet p g with
    | some v =>
      rw [show backfillPage p (g :: L') st =
        backfillPage p L' (hSet st.1 g v, st.2.erase g) from by
          rw [backfillPage, hpg]]
      exact ih _ (h.erase g)
    | none =>
      rw [show backfillPage p (g :: L') st = backfillPage p L' st from by
        rw [backfillPage, hpg]]
      exact ih _ h

theorem backfillPage_preserve_found (p : Header) (f : String) (v : Value)
    (hv : pageTruthyGet p f = some v) :
    ∀ (L : List String) (st : Header × List String), hGet st.1 f = some v →
      hGet (backfillPage p L st).1 f = some v := by
  intro L
  induction L with
  | nil => intro st h; exact h
  | cons g L' ih =>
    intro st h
    by_cases hg : g = f
    · subst hg
      rw [show backfillPage p (g :: L') st =
        backfillPage p L' (hSet st.1 g v, st.2.erase g) from by
          rw [backfillPage, hv]]
      exact ih _ (hGet_hSet_self st.1 g v)
    · cases hpg : pageTruthyGet p g with
      | some w =>
        rw [show backfillPage p (g :: L') st =
          backfillPage p L' (hSet st.1 g w, st.2.erase g) from by
            rw [backfillPage, hpg]]
        refine ih _ ?_
        rw [hGet_hSet_ne st.1 f g w hg]
        exact h
      | none =>
        rw [show backfillPage p (g :: L') st = backfillPage p L' st from by
          rw [backfillPage, hpg]]
        exact ih _ h

theorem backfillPage_found (p : Header) (f : String) (v : Value)
    (hv : pageTruthyGet p f = some v) :
    ∀ (L : List String) (st : Header × List String), f ∈ L →
      hGet (backfillPage p L st).1 f = some v := by
  intro L
  induction L with
  | nil => intro st h; cases h
  | cons g L' ih =>
    intro st hmem
    by_cases hg : g = f
    · subst hg
      rw [show backfillPage p (g :: L') st =
        backfillPage p L' (hSet st.1 g v, st.2.erase g) from by
          rw [backfillPage, hv]]
      exact backfillPage_preserve_found p g v hv L' _ (hGet_hSet_self st.1 g v)
    · have hmem' : f ∈ L' := by
        rcases List.mem_cons.mp hmem with h | h
        · exact absurd h.symm hg
        · exact h
      cases hpg : pageTruthyGet p g with
      | some w =>
        rw [show backfillPage p (g :: L') st =
          backfillPage p L' (hSet st.1 g w, st.2.erase g) from by
            rw [backfillPage, hpg]]
        exact ih _ hmem'
      | none =>
        rw [show backfillPage p (g :: L') st = backfillPage p L' st from by
          rw [backfillPage, hpg]]
        exact ih _ hmem'

theorem backfillPage_found_not_mem_snd (p : Header) (f : String) (v : Value)
    (hv : pageTruthyGet p f = some v) :
    ∀ (L : List String) (st : Header × List String), f ∈ L → st.2.Nodup →
      f ∉ (backfillPage p L st).2 := by
  intro L
  induction L with
  | nil => intro st h; cases h
  | cons g L' ih =>
    intro st hmem hnd
    by_cases hg : g = f
    · subst hg
      rw [show backfillPage p (g :: L') st =
        backfillPage p L' (hSet st.1 g v, st.2.erase g) from by
          rw [backfillPage, hv]]
      intro hmem2
      exact hnd.not_mem_erase
        (backfillPage_snd_subset p L' (hSet st.1 g v, st.2.erase g) hmem2)
    · have hmem' : f ∈ L' := by
        rcases List.mem_cons.mp hmem with h | h
        · exact absurd h.symm hg
        · exact h
      cases hpg : pageTruthyGet p g with
      | some w =>
        rw [show backfillPage p (g :: L') st =
          backfillPage p L' (hSet st.1 g w, st.2.erase g) from by
            rw [backfillPage, hpg]]
        exact ih _ hmem' (hnd.erase g)
      | none =>
        rw [show backfillPage p (g :: L') st = backfillPage p L' st from by
          rw [backfillPage, hpg]]
        exact ih _ hmem' hnd

theorem backfillPage_not_found (p : Header) (f : String)
    (hv : pageTruthyGet p f = none) :
    ∀ (L : List String) (st : Header × List String),
      hGet (backfillPage p L st).1 f = hGet st.1 f ∧
      (f ∈ st.2 → f ∈ (backfillPage p L st).2) := by
  intro L
  induction L with
  | nil => intro st; exact ⟨rfl, fun h => h⟩
  | cons g L' ih =>
    intro st
    by_cases hg : g = f
    · subst hg
      rw [show backfillPage p (g :: L') st = backfillPage p L' st from by
        rw [backfillPage, hv]]
      exact ih st
    · cases hpg : pageTruthyGet p g with
      | some w =>
        rw [show backfillPage p (g :: L') st =
          backfillPage p L' (hSet st.1 g w, st.2.erase g) from by
            rw [backfillPage, hpg]]
        constructor
        · rw [(ih _).1]
          exact hGet_hSet_ne st.1 f g w hg
        · intro hmem
          exact (ih _).2 ((List.mem_erase_of_ne (fun h => hg h.symm)).mpr hmem)
      | none =>
        rw [show backfillPage p (g :: L') st = backfillPage p L' st from by
          rw [backfillPage, hpg]]
        exact ih st

theorem backfillPages_get_not_missing (f : String) :
    ∀ (pages : List Header) (acc : Header) (ms : List String), f ∉ ms →
      hGet (backfillPages acc ms pages) f = hGet acc f := by
  intro pages
  induction pages with
  | nil => intro acc ms _; rfl
  | cons p rest ih =>
    intro acc ms hf
    rw [show backfillPages acc ms (p :: rest) =
      backfillPages (backfillPage p ms (acc, ms)).1
        (backfillPage p ms (acc, ms)).2 rest from rfl]
    have h2 : f ∉ (backfillPage p ms (acc, ms)).2 :=
      fun h => hf (backfillPage_snd_subset p ms (acc, ms) h)
    rw [ih _ _ h2]
    exact backfillPage_get_not_mem p ms (acc, ms) hf

theorem backfillPages_get (f : String) :
    ∀ (pages : List Header) (acc : Header) (missing : List String),
      f ∈ missing → missing.Nodup →
      hGet (backfillPages acc missing pages) f =
        match firstPageTruthy pages f with
        | some v => some v
        | none => hGet acc f := by
  intro pages
  induction pages with
  | nil => intro acc missing _ _; rfl
  | cons p rest ih =>
    intro acc missing hf hnd
    rw [show backfillPages acc missing (p :: rest) =
      backfillPages (backfillPage p missing (acc, missing)).1
        (backfillPage p missing (acc, missing)).2 rest from rfl]
    cases hpf : pageTruthyGet p f with
    | some v =>
      have h1 : hGet (backfillPage p missing (acc, missing)).1 f = some v :=
        backfillPage_found p f v hpf missing (acc, missing) hf
      have h2 : f ∉ (backfillPage p missing (acc, missing)).2 :=
        backfillPage_found_not_mem_snd p f v hpf missing (acc, missing) hf hnd
      rw [backfillPages_get_not_missing f rest _ _ h2, h1]
      simp [firstPageTruthy, hpf]
    | none =>
      have h1 := backfillPage_not_found p f hpf missing (acc, missing)
      have h2 : (backfillPage p missing (acc, missing)).2.Nodup :=
        backfillPage_snd_nodup p missing (acc, missing) hnd
      rw [ih _ _ (h1.2 hf) h2]
      cases hr : firstPageTruthy rest f <;>
        simp [firstPageTruthy, hpf, hr, h1.1]

theorem backfillPage_noop (p : Header) :
    ∀ (L : List String) (st : Header × List String),
      (∀ g ∈ L, pageTruthyGet p g = none) → backfillPage p L st = st := by
  intro L
  induction L with
  | nil => intro st _; rfl
  | cons g L' ih =>
    intro st hall
    rw [show backfillPage p (g :: L') st = backfillPage p L' st from by
      rw [backfillPage, hall g (List.mem_cons_self _ _)]]
    exact ih st (fun g' h' => hall g' (List.mem_cons_of_mem _ h'))

theorem backfillPages_noop :
    ∀ (pages : List Header) (acc : Header) (missing : List String),
      (∀ g ∈ missing, ∀ q ∈ pages, pageTruthyGet q g = none) →
      backfillPages acc missing pages = acc := by
  intro pages
  induction pages with
  | nil => intro acc missing _; rfl
  | cons p rest ih =>
    intro acc missing hall
    rw [show backfillPages acc missing (p :: rest) =
      backfillPages (backfillPage p missing (acc, missing)).1
        (backfillPage p missing (acc, missing)).2 rest from rfl,
      backfillPage_noop p missing (acc, missing)
        (fun g hg => hall g hg p (List.mem_cons_self _ _))]
    exact ih acc missing (fun g hg q hq => hall g hg q (List.mem_cons_of_mem _ hq))

theorem firstPageTruthy_none {pages : List Header} {k : String}
    (h : firstTruthy pages k = none) : firstPageTruthy pages k = none := by
  induction pages with
  | nil => rfl
  | cons p rest ih =>
    unfold firstTruthy at h
    cases hp : firstTruthyEntry p k with
    | some w => rw [hp] at h; exact Option.noConfusion h
    | none =>
      rw [hp] at h
      unfold firstPageTruthy
      rw [firstTruthyEntry_none_pageTruthyGet hp]
      exact ih h

theorem backfill_missing_critical_spec (acc : Header) (pages : List Header)
    (f : String) (hcrit : f ∈ critical_header_fields) :
    hGet (backfill_missing_critical acc pages) f =
      if truthy ((hGet acc f).getD Value.vNone) then hGet acc f
      else
        match firstPageTruthy pages f with
        | some v => some v
        | none => hGet acc f := by
  unfold backfill_missing_critical
  by_cases ht : truthy ((hGet acc f).getD Value.vNone) = true
  · have hnm : f ∉ missingCritical acc := by
      intro hmem
      have hpred := (List.mem_filter.mp hmem).2
      cases hg : hGet acc f with
      | none => rw [hg] at ht; simp [truthy] at ht
      | some v =>
        rw [hg] at ht
        simp only [Option.getD_some] at ht
        simp [hContains, hg, ht] at hpred
    rw [if_pos ht]
    split_ifs with hm
    · rfl
    · exact backfillPages_get_not_missing f pages acc _ hnm
  · have hmem : f ∈ missingCritical acc := by
      apply List.mem_filter.mpr
      refine ⟨hcrit, ?_⟩
      have ht' : truthy ((hGet acc f).getD Value.vNone) = false :=
        Bool.eq_false_iff.mpr ht
      simp [ht']
    have hne : missingCritical acc ≠ [] := List.ne_nil_of_mem hmem
    have hnd : (missingCritical acc).Nodup := List.Nodup.filter _ crit_nodup
    rw [if_neg hne, backfillPages_get f pages acc _ hmem hnd, if_neg ht]

theorem process_pages_vision_full_get (pages : List Header) (k : String)
    (hcrit : k ∈ critical_header_fields) :
    hGet (process_pages_vision_full pages) k = firstTruthy pages k := by
  unfold process_pages_vision_full
  split_ifs with hm
  · rw [backfill_missing_critical_spec _ _ _ hcrit,
      process_pages_vision_get pages k hcrit]
    cases hft : firstTruthy pages k with
    | some v => simp [firstTruthy_truthy hft]
    | none => simp [truthy, firstPageTruthy_none hft]
  · exact process_pages_vision_get pages k hcrit

theorem backfill_noop_on_text (pages : List Header) :
    backfill_missing_critical (process_pages_text pages) pages =
      process_pages_text pages := by
  unfold backfill_missing_critical
  split_ifs with hm
  · rfl
  · apply backfillPages_noop
    intro g hg q hq
    have hg1 : g ∈ critical_header_fields := (List.mem_filter.mp hg).1
    have hg2 := (List.mem_filter.mp hg).2
    have hget := process_pages_text_get pages g (crit_not_fin_text g hg1)
      (crit_ne_line_items g hg1)
    have hnone : firstTruthy pages g = none := by
      cases hft : firstTruthy pages g with
      | none => rfl
      | some v =>
        have hv := firstTruthy_truthy hft
        rw [hget, hft] at hg2
        simp [hContains, hv] at hg2
        rw [hget] at hg2
        rw [← hft]
        exact hg2
    exact firstTruthy_none_pageTruthyGet hnone q hq

/-! ### Merge-engine lemmas -/

theorem mem_keys_hSet {h : Header} {k : String} {v : Value} {k' : String} :
    k' ∈ (hSet h k v).map Prod.fst ↔ k' = k ∨ k' ∈ h.map Prod.fst := by
  induction h with
  | nil => simp [hSet]
  | cons kv t ih =>
    obtain ⟨k1, v1⟩ := kv
    by_cases hk : k1 = k
    · rw [show hSet ((k1, v1) :: t) k v = (k, v) :: t from by
        rw [hSet, if_pos hk]]
      simp only [List.map_cons, List.mem_cons]
      constructor
      · rintro (h2 | h2)
        · exact Or.inl h2
        · exact Or.inr (Or.inr h2)
      · rintro (h2 | h2 | h2)
        · exact Or.inl h2
        · exact Or.inl (h2.trans hk)
        · exact Or.inr h2
    · rw [show hSet ((k1, v1) :: t) k v = (k1, v1) :: hSet t k v from by
        rw [hSet, if_neg hk]]
      simp only [List.map_cons, List.mem_cons, ih]
      tauto

theorem injectCode_get_ne (key : String) (c : Option String) (m : Header)
    (k : String) (hne : key ≠ k) : hGet (injectCode key c m) k = hGet m k := by
  unfold injectCode
  split_ifs with h
  · exact hGet_hSet_ne m k key _ hne
  · rfl

theorem hGet_filter (p : String × Value → Bool) (h : Header) (k : String)
    (hp : ∀ v, p (k, v) = true) :
    hGet (h.filter p) k = hGet h k := by
  induction h with
  | nil => rfl
  | cons kv t ih =>
    obtain ⟨k1, v1⟩ := kv
    by_cases hk : k1 = k
    · have hkv : p (k1, v1) = true := by rw [hk]; exact hp v1
      rw [show ((k1, v1) :: t).filter p = (k1, v1) :: t.filter p from by
        simp [List.filter_cons, hkv]]
      show (if k1 = k then some v1 else hGet (t.filter p) k) =
        (if k1 = k then some v1 else hGet t k)
      simp only [if_pos hk]
    · cases hpk : p (k1, v1) with
      | true =>
        rw [show ((k1, v1) :: t).filter p = (k1, v1) :: t.filter p from by
          simp [List.filter_cons, hpk]]
        show (if k1 = k then some v1 else hGet (t.filter p) k) =
          (if k1 = k then some v1 else hGet t k)
        simp only [if_neg hk]
        exact ih
      | false =>
        rw [show ((k1, v1) :: t).filter p = t.filter p from by
          simp [List.filter_cons, hpk], ih]
        show hGet t k = (if k1 = k then some v1 else hGet t k)
        rw [if_neg hk]

theorem clean_line_item_keys (sd : SchemaData) (item : Header) (k : String) :
    k ∈ (clean_line_item sd item).map Prod.fst →
    k ∈ sd.line_item_props.getD [] := by
  have main : ∀ (fs : List String) (ci : Header),
      k ∈ (List.foldl (fun ci f =>
        if f ≠ "_source_page" then
          match hGet item f with
          | some v => hSet ci f v
          | none => ci
        else ci) ci fs).map Prod.fst →
      k ∈ ci.map Prod.fst ∨ (k ∈ fs ∧ k ≠ "_source_page") := by
    intro fs
    induction fs with
    | nil => intro ci h; exact Or.inl h
    | cons f fs' ih =>
      intro ci h
      rw [List.foldl_cons] at h
      rcases ih _ h with h1 | h1
      · by_cases hf : f ≠ "_source_page"
        · rw [if_pos hf] at h1
          cases hi : hGet item f with
          | some v =>
            rw [hi] at h1
            rcases mem_keys_hSet.mp h1 with rfl | h2
            · exact Or.inr ⟨List.mem_cons_self _ _, hf⟩
            · exact Or.inl h2
          | none => rw [hi] at h1; exact Or.inl h1
        · rw [if_neg hf] at h1; exact Or.inl h1
      · exact Or.inr ⟨List.mem_cons_of_mem _ h1.1, h1.2⟩
  intro h
  rcases main (line_item_fields sd) [] h with h1 | h1
  · simp at h1
  · have h2 := h1.1
    unfold line_item_fields at h2
    split_ifs at h2 with hs
    · exact h2
    · rcases List.mem_append.mp h2 with h3 | h3
      · exact h3
      · simp at h3
        exact absurd h3 h1.2

theorem merge_invoice_header_preserves (sd : SchemaData) (inv : String)
    (header : Header) (sup buy ship : Option String) (k : String)
    (hk : k ∈ header_level_fields sd) (h1 : k ≠ "invoice_number")
    (h2 : k ≠ "supplier_country_code") (h3 : k ≠ "buyer_country_code")
    (h4 : k ≠ "ship_to_country_code") :
    hGet (merge_invoice_header sd inv header sup buy ship) k = hGet header k := by
  unfold merge_invoice_header
  rw [hGet_filter _ _ _ (fun v => by simp [hk]),
    injectCode_get_ne _ ship _ _ (fun h => h4 h.symm),
    injectCode_get_ne _ buy _ _ (fun h => h3 h.symm),
    injectCode_get_ne _ sup _ _ (fun h => h2 h.symm),
    hGet_hSet_ne header k "invoice_number" _ (fun h => h1 h.symm)]

theorem monetaryCases_eq_spec (cl : List Char) :
    monetaryCases cl = monetaryCasesSpec cl := by
  by_cases hc : ',' ∈ cl <;> by_cases hp : '.' ∈ cl <;>
    by_cases hs : ' ' ∈ cl <;>
    simp [monetaryCases, monetaryCasesSpec, hc, hp, hs]

theorem monetaryCases_shape (cl : List Char) (v : Value)
    (h : monetaryCases cl = some v) :
    (∃ q, v = Value.vNum q) ∨ (∃ n, v = Value.vInt n) := by
  unfold monetaryCases at h
  split_ifs at h <;>
    first
    | (rcases Option.map_eq_some'.mp h with ⟨q, _, hv⟩; exact Or.inl ⟨q, hv.symm⟩)
    | (rcases Option.map_eq_some'.mp h with ⟨n, _, hv⟩; exact Or.inr ⟨n, hv.symm⟩)

/-- C3 (amended): the monetary normalizer is total, non-string input
passes through with null currency, the six-case disambiguation is
applied in the documented priority order (the code's conditions agree
with the spec's wording, via `normalizeSpec`), the documented examples
give the mathematically correct values and currencies, and on any parse
failure the *whitespace-stripped* original string is returned with the
detected currency (the surrounding whitespace is not preserved). -/
theorem c3_parse_monetary_value_normalizer :
    (∀ v : Value, (∀ s, v ≠ Value.vStr s) → parse_monetary_value v = (v, none)) ∧
    (∀ v : Value, parse_monetary_value v = normalizeSpec v) ∧
    (∀ s : String,
      (∃ q c, parse_monetary_value (Value.vStr s) = (Value.vNum q, c)) ∨
      (∃ n c, parse_monetary_value (Value.vStr s) = (Value.vInt n, c)) ∨
      (∃ c, parse_monetary_value (Value.vStr s) = (Value.vStr (pyStrip s), c)) ∨
      parse_monetary_value (Value.vStr s) = (Value.vStr s, none)) ∧
    parse_monetary_value (Value.vStr "5 123,45 €") =
      (Value.vNum (Rat.divInt 512345 100), some "€") ∧
    parse_monetary_value (Value.vStr "5,123.45") =
      (Value.vNum (Rat.divInt 512345 100), none) ∧
    parse_monetary_value (Value.vStr "not a number") =
      (Value.vStr "not a number", none) ∧
    Rat.divInt 512345 100 = (512345 : ℚ) / 100 := by
  refine ⟨?_, ?_, ?_, by decide, by decide, by decide,
    by norm_num [Rat.divInt_eq_div]⟩
  · intro v h
    cases v with
    | vStr s => exact absurd rfl (h s)
    | vNone => rfl
    | vInt n => rfl
    | vNum q => rfl
    | vBool b => rfl
  · intro v
    cases v <;> simp only [parse_monetary_value, normalizeSpec, monetaryCases_eq_spec]
  · intro s
    cases hb : (s.data.any fun c => c.isDigit || c = '.' || c = ',' || isPySpace c) with
    | false =>
      right; right; right
      simp [parse_monetary_value, hb]
    | true =>
      rcases hmc : monetaryCases ((pyStrip ⟨currencyRemove (pyStrip s).data⟩).data) with _ | v
      · right; right; left
        exact ⟨currencySearch (pyStrip s).data, by simp [parse_monetary_value, hb, hmc]⟩
      · rcases monetaryCases_shape _ _ hmc with ⟨q, rfl⟩ | ⟨n, rfl⟩
        · exact Or.inl ⟨q, currencySearch (pyStrip s).data,
            by simp [parse_monetary_value, hb, hmc]⟩
        · exact Or.inr (Or.inl ⟨n, currencySearch (pyStrip s).data,
            by simp [parse_monetary_value, hb, hmc]⟩)

/-- Witness for C3: the non-string pass-through clause applied at the
concrete input `7`. -/
theorem c3_parse_monetary_value_normalizer_witness :
    parse_monetary_value (Value.vInt 7) = (Value.vInt 7, none) :=
  c3_parse_monetary_value_normalizer.1 (Value.vInt 7)
    (fun _ h => Value.noConfusion h)

/-- C3 counterexample: the claim says a parse failure returns the
original string unchanged, but the code strips surrounding whitespace
first and returns the stripped string: `"abc, "` comes back `"abc,"`. -/
theorem c3_strip_counterexample :
    (parse_monetary_value (Value.vStr "abc, ")).1 = Value.vStr "abc," ∧
    (parse_monetary_value (Value.vStr "abc, ")).1 ≠ Value.vStr "abc, " := by
  decide

/-- C1 (amended): after the extraction stage, for a multi-page (or
multi-batch) invoice the header fields in the financial list (which
contains `total`, `subtotal` and `tax`) equal the value extracted from
the last page/batch of that invoice's page group *whenever that last
page/batch yields a non-empty (truthy) value for the field*, overriding
earlier values; an empty or missing value on the last page/batch leaves
the earlier first-written value in place; all other header fields keep
the first non-empty value written (first-write-wins); and the merge
stage preserves the value of any schema-declared header field other
than the forced invoice number and the injected country codes. -/
theorem c1_financial_fields_last_page_wins :
    (∀ (ps : List Header) (plast : Header) (k : String) (v : Value),
      ps ≠ [] → (plast.map Prod.fst).Nodup → (k, v) ∈ plast →
      truthy v = true → k ∈ financial_fields_text →
      hGet (process_pages_text (ps ++ [plast])) k = some v) ∧
    (∀ (bs : List Header) (blast : Header) (k : String) (v : Value),
      (blast.map Prod.fst).Nodup → (k, v) ∈ blast → truthy v = true →
      k ∈ financial_fields_text →
      hGet (process_batches (bs ++ [blast])) k = some v) ∧
    (∀ (pages : List Header) (k : String), k ∉ financial_fields_text →
      k ≠ "line_items" →
      hGet (process_pages_text pages) k = firstTruthy pages k) ∧
    (∀ (ps : List Header) (plast : Header) (k : String),
      firstTruthyEntry plast k = none → k ≠ "line_items" →
      hGet (process_pages_text (ps ++ [plast])) k = firstTruthy ps k) ∧
    (∀ (sd : SchemaData) (inv : String) (header : Header)
      (sup buy ship : Option String) (k : String), k ∈ header_level_fields sd →
      k ≠ "invoice_number" → k ≠ "supplier_country_code" →
      k ≠ "buyer_country_code" → k ≠ "ship_to_country_code" →
      hGet (merge_invoice_header sd inv header sup buy ship) k = hGet header k) :=
  ⟨process_pages_text_financial_last,
   process_batches_financial_final,
   process_pages_text_get,
   process_pages_text_keep_earlier,
   merge_invoice_header_preserves⟩

/-- Witness for C1 at a concrete two-page invoice: the last page's
truthy `total` of `"2"` overrides the first page's `"1"`. -/
theorem c1_financial_fields_last_page_wins_witness :
    hGet (process_pages_text
        [[("total", Value.vStr "1")], [("total", Value.vStr "2")]]) "total" =
      some (Value.vStr "2") :=
  c1_financial_fields_last_page_wins.1
    [[("total", Value.vStr "1")]] [("total", Value.vStr "2")]
    "total" (Value.vStr "2") (by decide) (by decide) (by decide)
    (by decide) (by decide)

/-- C1 counterexample: the claim says `total` always equals the value
extracted from the last page, but when the last page extracts an empty
`total` the earlier page's value is kept: pages
`[{total: "100"}, {total: None}]` merge to `total = "100"`, which is not
the last page's extracted value `None`. -/
theorem c1_last_page_empty_total_counterexample :
    hGet (process_pages_text
        [[("total", Value.vStr "100")], [("total", Value.vNone)]]) "total" =
      some (Value.vStr "100") ∧
    hGet [("total", Value.vNone)] "total" = some Value.vNone ∧
    Value.vStr "100" ≠ Value.vNone := by
  decide

/-- C2: every key of a merged header map is declared in the schema's
top-level properties (excluding `line_items` and `_`-prefixed keys), and
every key of every cleaned line item is declared in the schema's
line-item properties. -/
theorem c2_merge_schema_projection :
    (∀ (sd : SchemaData) (inv : String) (header : Header)
      (sup buy ship : Option String) (k : String),
      k ∈ (merge_invoice_header sd inv header sup buy ship).map Prod.fst →
      k ≠ "line_items" → startsWithUnderscore k = false →
      k ∈ sd.header_props.getD []) ∧
    (∀ (sd : SchemaData) (items : List Header) (item : Header) (k : String),
      item ∈ clean_line_items sd items → k ∈ item.map Prod.fst →
      k ∈ sd.line_item_props.getD []) := by
  constructor
  · intro sd inv header sup buy ship k hk hli hus
    unfold merge_invoice_header at hk
    rcases List.mem_map.mp hk with ⟨kv, hkv, hfst⟩
    have hpred := (List.mem_filter.mp hkv).2
    simp only [Bool.or_eq_true, decide_eq_true_eq, beq_iff_eq] at hpred
    rw [hfst] at hpred
    have hhl : k ∈ header_level_fields sd := by
      rcases hpred with (h1 | h2) | h3
      · exact h1
      · exact absurd h2 hli
      · rw [h3] at hus; exact Bool.noConfusion hus
    exact List.mem_of_mem_erase hhl
  · intro sd items item k hitem hk
    rcases List.mem_map.mp hitem with ⟨it, _, hmap⟩
    rw [← hmap] at hk
    exact clean_line_item_keys sd it k hk

/-- Witness for C2 at a concrete schema and header: the undeclared key
`garbage` is dropped, only declared keys survive. -/
theorem c2_merge_schema_projection_witness :
    ∀ k ∈ (merge_invoice_header
        ⟨some ["invoice_number", "total", "line_items"], some ["amount"]⟩
        "INV-1" [("total", Value.vStr "5"), ("garbage", Value.vStr "x")]
        none none none).map Prod.fst,
      k ≠ "line_items" → startsWithUnderscore k = false →
      k ∈ ["invoice_number", "total", "line_items"] :=
  fun k hk =>
    c2_merge_schema_projection.1
      ⟨some ["invoice_number", "total", "line_items"], some ["amount"]⟩
      "INV-1" [("total", Value.vStr "5"), ("garbage", Value.vStr "x")]
      none none none k hk

/-- C6: under page-level processing, each critical identifying field is
captured from whichever page first provides a non-empty value,
regardless of page position, in both the text path and the vision path
(both equal the first truthy value across the pages in processing
order); the vision path's backfill pass adopts, for every critical field
missing or empty in the merged header, the value from the first stored
per-page record that has it; and that backfill pass is a no-op on the
text path's accumulated header (first-non-empty capture already
guarantees its outcome). -/
theorem c6_critical_fields_capture_and_backfill :
    (∀ (pages : List Header) (k : String), k ∈ critical_header_fields →
      hGet (process_pages_text pages) k = firstTruthy pages k) ∧
    (∀ (pages : List Header) (k : String), k ∈ critical_header_fields →
      hGet (process_pages_vision_full pages) k = firstTruthy pages k) ∧
    (∀ (acc : Header) (pages : List Header) (f : String),
      f ∈ critical_header_fields →
      hGet (backfill_missing_critical acc pages) f =
        if truthy ((hGet acc f).getD Value.vNone) then hGet acc f
        else
          match firstPageTruthy pages f with
          | some v => some v
          | none => hGet acc f) ∧
    (∀ pages : List Header,
      backfill_missing_critical (process_pages_text pages) pages =
        process_pages_text pages) := by
  refine ⟨?_, process_pages_vision_full_get, backfill_missing_critical_spec,
    backfill_noop_on_text⟩
  intro pages k h
  exact process_pages_text_get pages k (crit_not_fin_text k h)
    (crit_ne_line_items k h)

/-- Witness for C6 at a concrete two-page invoice: `po_number` is empty
on page 1 and captured from page 2, in both paths. -/
theorem c6_critical_fields_capture_and_backfill_witness :
    hGet (process_pages_text
        [[("po_number", Value.vNone)], [("po_number", Value.vStr "PO-1")]])
      "po_number" = some (Value.vStr "PO-1") ∧
    hGet (process_pages_vision_full
        [[("po_number", Value.vNone)], [("po_number", Value.vStr "PO-1")]])
      "po_number" = some (Value.vStr "PO-1") := by
  constructor
  · rw [c6_critical_fields_capture_and_backfill.1
      [[("po_number", Value.vNone)], [("po_number", Value.vStr "PO-1")]]
      "po_number" (by decide)]
    decide
  · rw [c6_critical_fields_capture_and_backfill.2.1
      [[("po_number", Value.vNone)], [("po_number", Value.vStr "PO-1")]]
      "po_number" (by decide)]
    decide

/-- C5 (amended): every modelled stage after ParseRequest, except
PrepareResponse, entered with an error-status context transitions to
`handle_error` with an empty update, performing none of its normal work
(no oracle or continuation is consulted); PrepareResponse instead
builds the error envelope itself, writes it to `output`, and
transitions directly to the terminal `END` node. -/
theorem c5_error_short_circuit :
    (∀ (rest : AgentState → Command) (s : AgentState), s.status = some "error" →
      identify_supplier rest s = Command.mk noUpdate Node.handle_error) ∧
    (∀ (llm : Except String CCResult) (fb : Except String String)
      (ck : Except String Bool) (s : AgentState), s.status = some "error" →
      extract_country_codes llm fb ck s = Command.mk noUpdate Node.handle_error) ∧
    (∀ (store : ConfigStore) (rest : SchemaData × String → Command)
      (s : AgentState), s.status = some "error" →
      extract_invoice_data store rest s = Command.mk noUpdate Node.handle_error) ∧
    (∀ (store : ConfigStore) (rest : SchemaData × String → Command)
      (s : AgentState), s.status = some "error" →
      extract_invoice_data_image store rest s =
        Command.mk noUpdate Node.handle_error) ∧
    (∀ (rest : AgentState → Command) (s : AgentState), s.status = some "error" →
      merge_invoice_data rest s = Command.mk noUpdate Node.handle_error) ∧
    (∀ (rest : AgentState → Command) (ts : String) (s : AgentState),
      s.status = some "error" →
      prepare_response rest ts s =
        Command.mk
          { noUpdate with
            output := some ⟨"error",
              some (pyOr s.error "Unknown error during extraction"), none, ts⟩ }
          Node.endNode) := by
  refine ⟨?_, ?_, ?_, ?_, ?_, ?_⟩
  · intro rest s h
    unfold identify_supplier
    rw [if_pos h]
  · intro llm fb ck s h
    unfold extract_country_codes
    rw [if_pos h]
  · intro store rest s h
    unfold extract_invoice_data
    rw [if_pos h]
  · intro store rest s h
    unfold extract_invoice_data_image
    rw [if_pos (Or.inl h)]
  · intro rest s h
    unfold merge_invoice_data
    rw [if_pos h]
  · intro rest ts s h
    unfold prepare_response
    rw [if_pos h]

/-- Witness for C5 at a concrete error-status context. -/
theorem c5_error_short_circuit_witness :
    identify_supplier (fun _ => Command.mk noUpdate Node.endNode)
      ⟨some "tx1", some "error", some "boom", none, none, none, none, none,
        none, none, none, none, none, [], none⟩ =
      Command.mk noUpdate Node.handle_error :=
  c5_error_short_circuit.1 (fun _ => Command.mk noUpdate Node.endNode)
    ⟨some "tx1", some "error", some "boom", none, none, none, none, none,
      none, none, none, none, none, [], none⟩ rfl

/-- C5 counterexample: the claim says every stage after ParseRequest
transitions to `handle_error` on an error context without state
updates, but `prepare_response` at a concrete error context goes to
`END`, not `handle_error`, and writes the error envelope to `output`. -/
theorem c5_prepare_response_counterexample :
    (prepare_response (fun _ => Command.mk noUpdate Node.endNode) "ts"
      ⟨some "tx1", some "error", some "boom", none, none, none, none, none,
        none, none, none, none, none, [], none⟩).goto = Node.endNode ∧
    (prepare_response (fun _ => Command.mk noUpdate Node.endNode) "ts"
      ⟨some "tx1", some "error", some "boom", none, none, none, none, none,
        none, none, none, none, none, [], none⟩).goto ≠ Node.handle_error ∧
    (prepare_response (fun _ => Command.mk noUpdate Node.endNode) "ts"
      ⟨some "tx1", some "error", some "boom", none, none, none, none, none,
        none, none, none, none, none, [], none⟩).update ≠ noUpdate := by
  decide

/-- C7: the configuration resolver first looks up
(country, brand.lower(), method); on a miss it retries with brand
`"default"`; when even the default row is missing it raises a
configuration-not-found error, which the extraction stage's handler
converts into the error state and a transition to the terminal error
funnel, whose output envelope has status `"error"`. -/
theorem c7_configuration_resolver :
    (∀ (store : ConfigStore) (c : Option String) (brand method : String)
      (row : PromptRow),
      queryRegistry store c (pyLower brand) method = some row →
      get_supplier_configuration store c brand method =
        Except.ok (row.schema_json,
          withFeedback store c (pyLower brand) (rowInstructions row))) ∧
    (∀ (store : ConfigStore) (c : Option String) (brand method : String)
      (row : PromptRow),
      queryRegistry store c (pyLower brand) method = none →
      queryRegistry store c "default" method = some row →
      get_supplier_configuration store c brand method =
        Except.ok (row.schema_json,
          withFeedback store c (pyLower brand) (rowInstructions row))) ∧
    (∀ (store : ConfigStore) (c : Option String) (brand method : String),
      queryRegistry store c (pyLower brand) method = none →
      queryRegistry store c "default" method = none →
      get_supplier_configuration store c brand method =
        Except.error ("No default configuration found for " ++ method)) ∧
    (∀ (store : ConfigStore) (rest : SchemaData × String → Command)
      (s : AgentState) (brand e : String),
      ¬ s.status = some "error" → s.brand_name = some brand →
      get_supplier_configuration store s.supplier_country_code brand "text" =
        Except.error e →
      extract_invoice_data store rest s =
        Command.mk (mkErrorUpdate ("Error extracting invoice data: " ++ e))
          Node.handle_error) ∧
    (∀ (ck : Except String Bool) (ts : String) (s : AgentState),
      (handle_error ck ts s).output =
        some ⟨"error", some (pyOr s.error "Unknown error during invoice extraction"),
          s.status, ts⟩) := by
  refine ⟨?_, ?_, ?_, ?_, ?_⟩
  · intro store c brand method row h
    unfold get_supplier_configuration
    rw [h]
  · intro store c brand method row h1 h2
    unfold get_supplier_configuration
    rw [h1, h2]
  · intro store c brand method h1 h2
    unfold get_supplier_configuration
    rw [h1, h2]
  · intro store rest s brand e hs hb hcfg
    unfold extract_invoice_data
    rw [if_neg hs]
    simp only [hb, hcfg]
  · intro ck ts s
    unfold handle_error
    cases s.id with
    | none => rfl
    | some i =>
      cases ck with
      | ok b => cases b <;> rfl
      | error e => rfl

/-- Witness for C7: on an empty configuration store every lookup
misses and the resolver raises the configuration-not-found error. -/
theorem c7_configuration_resolver_witness :
    get_supplier_configuration ⟨[], []⟩ (some "US") "Acme" "text" =
      Except.error ("No default configuration found for " ++ "text") :=
  c7_configuration_resolver.2.2.1 ⟨[], []⟩ (some "US") "Acme" "text" rfl rfl

/-- C9: every checkpoint write — the `Received` initial-header insert in
`extract_country_codes`, the `Processing` invoice-number update in the
extraction stages, and the `Failed` status update in `handle_error` — is
best-effort: whether the persistence adapter returns `True`, returns
`False`, or raises, the enclosing computation's result is identical. -/
theorem c9_checkpoints_best_effort :
    (∀ (llm : Except String CCResult) (fb : Except String String)
      (ck ck' : Except String Bool) (s : AgentState),
      extract_country_codes llm fb ck s = extract_country_codes llm fb ck' s) ∧
    (∀ (ck ck' : Except String Bool) (pages : List (String × List String)),
      record_processing_checkpoint ck pages =
        record_processing_checkpoint ck' pages) ∧
    (∀ (ck ck' : Except String Bool) (ts : String) (s : AgentState),
      handle_error ck ts s = handle_error ck' ts s) := by
  refine ⟨?_, ?_, ?_⟩
  · intro llm fb ck ck' s
    cases ck with
    | ok b =>
      cases ck' with
      | ok b' => cases b <;> cases b' <;> rfl
      | error e' => cases b <;> rfl
    | error e =>
      cases ck' with
      | ok b' => cases b' <;> rfl
      | error e' => rfl
  · intro ck ck' pages
    cases pages with
    | nil => rfl
    | cons p rest =>
      cases ck with
      | ok b =>
        cases ck' with
        | ok b' => cases b <;> cases b' <;> rfl
        | error e' => cases b <;> rfl
      | error e =>
        cases ck' with
        | ok b' => cases b' <;> rfl
        | error e' => rfl
  · intro ck ck' ts s
    unfold handle_error
    cases s.id with
    | none => rfl
    | some i =>
      cases ck with
      | ok b =>
        cases ck' with
        | ok b' => cases b <;> cases b' <;> rfl
        | error e' => cases b <;> rfl
      | error e =>
        cases ck' with
        | ok b' => cases b' <;> rfl
        | error e' => rfl

/-- C10: `parse_message` coerces invalid processing parameters instead
of failing — a `processing_level` outside page/invoice becomes
`"page"`, a `processing_max_pages` that is not a non-negative integer
becomes `0` — while `processing_method` is stored without validation,
and for a PDF every method other than `"image"` selects text
processing. -/
theorem c10_parse_message_coercions :
    (∀ (m : RequestMsg) (path : String), m.invoice_path = some path →
      (parse_message (some m)).update.processing_level = some "page" ∨
      (parse_message (some m)).update.processing_level = some "invoice") ∧
    (∀ (m : RequestMsg) (path pl : String), m.invoice_path = some path →
      m.processing_level = some pl → pl ≠ "page" → pl ≠ "invoice" →
      (parse_message (some m)).update.processing_level = some "page") ∧
    (∀ (m : RequestMsg) (path : String) (n : Int), m.invoice_path = some path →
      (parse_message (some m)).update.processing_max_pages = some n → 0 ≤ n) ∧
    (∀ (m : RequestMsg) (path : String), m.invoice_path = some path →
      m.processing_max_pages = some JsonNum.jother →
      (parse_message (some m)).update.processing_max_pages = some 0) ∧
    (∀ (m : RequestMsg) (path : String) (n : Int), m.invoice_path = some path →
      m.processing_max_pages = some (JsonNum.jint n) → n < 0 →
      (parse_message (some m)).update.processing_max_pages = some 0) ∧
    (∀ (m : RequestMsg) (path : String), m.invoice_path = some path →
      (parse_message (some m)).update.processing_method =
        some (m.processing_method.getD "text")) ∧
    (∀ method : String, method ≠ "image" → use_vision ".pdf" method = false) ∧
    use_vision ".pdf" "image" = true := by
  refine ⟨?_, ?_, ?_, ?_, ?_, ?_, ?_, by decide⟩
  · intro m path hp
    rw [show parse_message (some m) = parse_message_fields m from rfl]
    unfold parse_message_fields
    rw [hp]
    by_cases h : (m.processing_level.getD "page") = "page" ∨
        (m.processing_level.getD "page") = "invoice"
    · rcases h with h | h
      · left; simp [h]
      · by_cases h2 : (m.processing_level.getD "page") = "page"
        · left; simp [h2]
        · right; simp [if_pos (Or.inr h), h]
    · left; simp [if_neg h]
  · intro m path pl hp hpl h1 h2
    rw [show parse_message (some m) = parse_message_fields m from rfl]
    unfold parse_message_fields
    rw [hp]
    have h : ¬ ((m.processing_level.getD "page") = "page" ∨
        (m.processing_level.getD "page") = "invoice") := by
      rw [hpl]
      simp [Option.getD_some]
      exact ⟨h1, h2⟩
    simp [if_neg h]
  · intro m path n hp hn
    rw [show parse_message (some m) = parse_message_fields m from rfl] at hn
    unfold parse_message_fields at hn
    rw [hp] at hn
    simp only at hn
    cases hm : m.processing_max_pages with
    | none => rw [hm] at hn; simp at hn; omega
    | some j =>
      cases j with
      | jint k =>
        rw [hm] at hn
        by_cases hk : k < 0
        · simp [hk] at hn; omega
        · simp [hk] at hn; omega
      | jother => rw [hm] at hn; simp at hn; omega
  · intro m path hp hm
    rw [show parse_message (some m) = parse_message_fields m from rfl]
    unfold parse_message_fields
    rw [hp, hm]
  · intro m path n hp hm hneg
    rw [show parse_message (some m) = parse_message_fields m from rfl]
    unfold parse_message_fields
    rw [hp, hm]
    simp [hneg]
  · intro m path hp
    rw [show parse_message (some m) = parse_message_fields m from rfl]
    unfold parse_message_fields
    rw [hp]
  · intro method h
    have hb : (method == "image") = false := by
      rw [beq_eq_false_iff_ne]
      exact h
    simp [use_vision, isImageExt, hb]

/-- Witness for C10 at a concrete request: an invalid
`processing_level` of `"bogus"` is coerced to `"page"`. -/
theorem c10_parse_message_coercions_witness :
    (parse_message (some ⟨some "inv.pdf", none, none, some JsonNum.jother,
      some "bogus"⟩)).update.processing_level = some "page" :=
  c10_parse_message_coercions.2.1
    ⟨some "inv.pdf", none, none, some JsonNum.jother, some "bogus"⟩
    "inv.pdf" "bogus" rfl rfl (by decide) (by decide)

/-- C4 (amended): page-selection resolution: for every `totalPages`,
spec `"first"` gives `[1]` and `"all"` gives `[1..totalPages]` in both
paths; any other spec is expanded from comma-separated page numbers and
`a-b` ranges and filtered to `[1, totalPages]`, identically in both
paths; but when the expansion is empty or the spec unparsable, the text
path falls back to all pages while the vision path falls back to the
first page `[1]` only (neither fails). -/
theorem c4_resolve_pages :
    (∀ total : Nat, resolve_pages_text total "first" = [1] ∧
      resolve_pages_vision total "first" = [1]) ∧
    (∀ total : Nat, resolve_pages_text total "all" = allPages total ∧
      resolve_pages_vision total "all" = allPages total) ∧
    (∀ (total : Nat) (spec : String), spec ≠ "first" → spec ≠ "all" →
      parsePagesSpec spec = none →
      resolve_pages_text total spec = allPages total ∧
      resolve_pages_vision total spec = [1]) ∧
    (∀ (total : Nat) (spec : String) (l : List Int), spec ≠ "first" →
      spec ≠ "all" → parsePagesSpec spec = some l →
      l.filter (inPageRange total) = [] →
      resolve_pages_text total spec = allPages total ∧
      resolve_pages_vision total spec = [1]) ∧
    (∀ (total : Nat) (spec : String) (l : List Int), spec ≠ "first" →
      spec ≠ "all" → parsePagesSpec spec = some l →
      l.filter (inPageRange total) ≠ [] →
      resolve_pages_text total spec =
        l.filter (inPageRange total) ∧
      resolve_pages_vision total spec =
        l.filter (inPageRange total)) ∧
    resolve_pages_text 10 "3-5,8" = [3, 4, 5, 8] ∧
    resolve_pages_vision 10 "3-5,8" = [3, 4, 5, 8] ∧
    resolve_pages_text 10 "" = allPages 10 ∧
    resolve_pages_text 5 "first" = [1] := by
  refine ⟨?_, ?_, ?_, ?_, ?_, by decide, by decide, by decide, by decide⟩
  · intro total
    constructor <;> simp [resolve_pages_text, resolve_pages_vision]
  · intro total
    constructor <;> simp [resolve_pages_text, resolve_pages_vision]
  · intro total spec h1 h2 h3
    constructor <;> simp [resolve_pages_text, resolve_pages_vision, h1, h2, h3]
  · intro total spec l h1 h2 h3 h4
    constructor <;> simp [resolve_pages_text, resolve_pages_vision, h1, h2, h3, h4]
  · intro total spec l h1 h2 h3 h4
    constructor <;> simp [resolve_pages_text, resolve_pages_vision, h1, h2, h3, h4]

/-- Witness for C4: the empty (unparsable) spec at `totalPages = 10`
falls back to all pages in the text path and to `[1]` in the vision
path. -/
theorem c4_resolve_pages_witness :
    resolve_pages_text 10 "" = allPages 10 ∧
    resolve_pages_vision 10 "" = [1] :=
  c4_resolve_pages.2.2.1 10 "" (by decide) (by decide) (by decide)

/-- C4 counterexample: the claim says any unparsable spec falls back to
all pages in both paths, but the vision path resolves the empty spec at
10 total pages to `[1]`, not `[1..10]`. -/
theorem c4_vision_fallback_counterexample :
    resolve_pages_vision 10 "" = [1] ∧
    resolve_pages_vision 10 "" ≠ allPages 10 := by
  decide

/-- C8: the deterministic region fallback is a total function on country
codes: every code in the static NA set maps to `"NA"`, in the EMEA set to
`"EMEA"`, in the APAC set to `"APAC"`, in the LATAM set to `"LATAM"`
(after uppercasing the input); a `None` code, an empty code, and any code
in none of the sets map to `"UNKNOWN"`; and every code maps to exactly
one of the five region labels. -/
theorem c8_determine_region_fallback_total :
    (∀ c ∈ na_countries, determine_region_fallback (some c) = "NA") ∧
    (∀ c ∈ emea_countries, determine_region_fallback (some c) = "EMEA") ∧
    (∀ c ∈ apac_countries, determine_region_fallback (some c) = "APAC") ∧
    (∀ c ∈ latam_countries, determine_region_fallback (some c) = "LATAM") ∧
    determine_region_fallback none = "UNKNOWN" ∧
    determine_region_fallback (some "") = "UNKNOWN" ∧
    (∀ s : String, pyUpper s ∉ na_countries → pyUpper s ∉ emea_countries →
      pyUpper s ∉ apac_countries → pyUpper s ∉ latam_countries →
      determine_region_fallback (some s) = "UNKNOWN") ∧
    (∀ s : String, determine_region_fallback (some s) ∈
      ["NA", "EMEA", "APAC", "LATAM", "UNKNOWN"]) := by
  refine ⟨by decide, by decide, by decide, by decide, rfl, by decide, ?_, ?_⟩
  · intro s h1 h2 h3 h4
    by_cases hs : s = ""
    · simp [determine_region_fallback, hs]
    · simp [determine_region_fallback, hs, h1, h2, h3, h4]
  · intro s
    by_cases hs : s = ""
    · simp [determine_region_fallback, hs]
    · simp only [determine_region_fallback, hs, if_false]
      split_ifs <;> simp

/-- Witness for C8 at concrete inputs: `"US"` is in the NA set and maps
to `"NA"`; `"QQ"` is in no set and maps to `"UNKNOWN"`. -/
theorem c8_determine_region_fallback_total_witness :
    determine_region_fallback (some "US") = "NA" ∧
    determine_region_fallback (some "QQ") = "UNKNOWN" :=
  ⟨c8_determine_region_fallback_total.1 "US" (by decide),
   c8_determine_region_fallback_total.2.2.2.2.2.2.1 "QQ"
     (by decide) (by decide) (by decide) (by decide)⟩

end InvoiceApp
